import Mathlib

/- Verification development for the dead-code-finder core.
   Shallow embedding of the repository's source: the classification heuristics
   of src/utils.ts, the tables of src/config.ts, the structural (AST) analyzer
   of src/ast-analyzer.ts, and the DeadCodeAnalyzer (regex strategy,
   cross-reference decision and unused-file detector) of src/analyzer.ts.

   Modelling conventions, used throughout:
   - JS strings are Lean `String`; scanning regexes that the source builds from
     fixed patterns are translated into executable character-list scanners that
     implement exactly the semantics of those concrete patterns.
   - `path.relative(base, p)` is modelled as `p` itself: the analyzed inputs
     are taken as already given relative to the base, which is what the
     resolution produces on such inputs.  `path.sep` is `/`.
   - File reads (`fs.readFileSync`) are an oracle `String → Option String`;
     an un-caught read failure is an `Except.error`, matching the un-caught
     JS exception.  File stats are an oracle `String → Option Nat`.
   - The external parsers (babel / typescript-eslint) are an oracle
     `String → String → Except String Node` (extension, content ↦ tree).
   - The streams of matches produced by the regex tables of src/config.ts on a
     given content are oracles as well; properties proved over them hold for
     every possible match stream. -/

namespace DeadCode

/-! ### Character and substring utilities (JS regex primitives) -/

/-- JS `\w` character class: `[A-Za-z0-9_]`. -/
def isWordChar (c : Char) : Bool := c.isAlpha || c.isDigit || c == '_'

/-- JS `\s` on the ASCII fragment relevant to source files. -/
def jsWhitespace (c : Char) : Bool := c == ' ' || c == '\t' || c == '\n' || c == '\r'

def startsWithList : List Char → List Char → Bool
  | [], _ => true
  | _ :: _, [] => false
  | p :: ps, c :: cs => p == c && startsWithList ps cs

def containsSub (pat : List Char) : List Char → Bool
  | [] => startsWithList pat []
  | c :: cs => startsWithList pat (c :: cs) || containsSub pat cs

/-- JS `content.includes(pat)` / an unanchored literal regex test. -/
def containsSubstr (s pat : String) : Bool := containsSub pat.data s.data

def endsWithList (pat s : List Char) : Bool := startsWithList pat.reverse s.reverse

/-- JS `String.prototype.split` with a non-empty separator string; `skip`
    counts separator characters still to be consumed after a match. -/
def splitOnListAux (c0 : Char) (srest : List Char) : Nat → List Char → List Char →
    List (List Char)
  | _, cur, [] => [cur.reverse]
  | skip + 1, cur, _ :: rest => splitOnListAux c0 srest skip cur rest
  | 0, cur, c :: rest =>
    if c = c0 && startsWithList srest rest then
      cur.reverse :: splitOnListAux c0 srest srest.length [] rest
    else splitOnListAux c0 srest 0 (c :: cur) rest

def splitOnStr (sep s : String) : List String :=
  match sep.data with
  | [] => [s]
  | c0 :: srest => (splitOnListAux c0 srest 0 [] s.data).map String.mk

def joinWith (sep : String) : List String → String
  | [] => ""
  | [x] => x
  | x :: rest => x ++ sep ++ joinWith sep rest

/-- JS `String.prototype.trim` on the ASCII whitespace fragment. -/
def trimStr (s : String) : String :=
  String.mk (((s.data.dropWhile jsWhitespace).reverse.dropWhile jsWhitespace).reverse)

/-- JS `String.prototype.toLowerCase` on ASCII letters. -/
def toLowerStr (s : String) : String := String.mk (s.data.map Char.toLower)

/-- Scan every position of a character list, also remembering the previous
    character (for word-boundary tests); succeeds if `f` does anywhere. -/
def scanWithPrev (f : Option Char → List Char → Bool) : Option Char → List Char → Bool
  | pre, [] => f pre []
  | pre, c :: cs => f pre (c :: cs) || scanWithPrev f (some c) cs

/-- A `\b` boundary holds just before a word character when the previous
    character is absent or not a word character. -/
def boundaryBefore (pre : Option Char) : Bool :=
  match pre with
  | none => true
  | some c => !(isWordChar c)

/-- A `\b` boundary holds just after a name when the next character is absent
    or not a word character. -/
def boundaryAfter (rest : List Char) : Bool :=
  match rest with
  | [] => true
  | c :: _ => !(isWordChar c)

/-- The test `new RegExp ("\\b" ++ name ++ "\\s*\\(")` of the cross-reference
    decision: a word-boundary occurrence of the name followed by optional
    whitespace and an opening parenthesis. -/
def wordCallTest (nm content : String) : Bool :=
  nm.data ≠ [] &&
    scanWithPrev
      (fun pre s =>
        boundaryBefore pre && startsWithList nm.data s &&
          (match (s.drop nm.data.length).dropWhile jsWhitespace with
           | '(' :: _ => true
           | _ => false))
      none content.data

/-- The test `new RegExp ("<" ++ name ++ "[\\s/>]")`: a JSX-style reference. -/
def jsxUsageTest (nm content : String) : Bool :=
  nm.data ≠ [] &&
    scanWithPrev
      (fun _ s =>
        match s with
        | '<' :: rest =>
          startsWithList nm.data rest &&
            (match rest.drop nm.data.length with
             | c :: _ => jsWhitespace c || c == '/' || c == '>'
             | [] => false)
        | _ => false)
      none content.data

/-- The test `new RegExp ("\\b" ++ name ++ "\\b")`: a bare word occurrence. -/
def bareWordTest (nm content : String) : Bool :=
  nm.data ≠ [] &&
    scanWithPrev
      (fun pre s =>
        boundaryBefore pre && startsWithList nm.data s &&
          boundaryAfter (s.drop nm.data.length))
      none content.data

/-- Test `REACT_HOOKS_REGEX = /^use[A-Z]\w*$/` of src/config.ts; being anchored at
    both ends and single-line, it is a whole-string test. -/
def reactHooksRegexTest (s : String) : Bool :=
  match s.data with
  | 'u' :: 's' :: 'e' :: c :: rest => c.isUpper && rest.all isWordChar
  | _ => false

/-! ### src/utils.ts : isCommonPattern -/

/-- Function `isCommonPattern` of src/utils.ts: digits only, a single letter, or a
    leading character that is not a letter or underscore. -/
def isCommonPattern (name : String) : Bool :=
  (name.data ≠ [] && name.data.all Char.isDigit) ||
  (match name.data with | [c] => c.isLower | _ => false) ||
  (match name.data with | [c] => c.isUpper | _ => false) ||
  (match name.data with | c :: _ => !(c.isAlpha || c == '_') | [] => false)

/-! ### src/config.ts : BUILT_INS -/

/-- The `BUILT_INS` set of src/config.ts, kept as the literal list of the
    source (a JS `Set` deduplicates repeated entries; `contains` agrees). -/
def BUILT_INS : List String := [
  "React", "useState", "useEffect", "useContext", "useReducer", "useCallback", "useMemo",
  "useRef", "useImperativeHandle", "useLayoutEffect", "useDebugValue", "useDeferredValue",
  "useTransition", "useId", "useSyncExternalStore", "useInsertionEffect", "Fragment",
  "Suspense", "ErrorBoundary", "StrictMode", "Profiler", "memo", "forwardRef", "lazy",
  "createElement", "cloneElement", "createContext", "Children", "isValidElement", "createRef",
  "NextPage", "GetServerSideProps", "GetStaticProps", "GetStaticPaths", "InferGetServerSidePropsType",
  "InferGetStaticPropsType", "NextApiRequest", "NextApiResponse", "NextPageContext", "AppProps",
  "AppContext", "Head", "Html", "Main", "NextScript", "Document", "App", "Router", "Image", "Link",
  "useRouter", "usePathname", "useSearchParams", "useSelectedLayoutSegment", "useSelectedLayoutSegments",
  "useServerInsertedHTML", "redirect", "notFound",
  "div", "span", "p", "h1", "h2", "h3", "h4", "h5", "h6", "a", "img", "button", "input", "form",
  "ul", "li", "ol", "table", "tr", "td", "th", "thead", "tbody", "section", "article", "header",
  "footer", "nav", "main", "aside", "figure", "figcaption", "blockquote", "code", "pre",
  "strong", "em", "b", "i", "u", "mark", "small", "sub", "sup", "br", "hr", "iframe", "canvas",
  "svg", "path", "circle", "rect", "g", "line", "polyline", "polygon", "text", "ellipse",
  "console", "window", "document", "localStorage", "sessionStorage", "setTimeout", "setInterval",
  "clearTimeout", "clearInterval", "fetch", "Promise", "async", "await", "try", "catch", "finally",
  "if", "else", "for", "while", "do", "switch", "case", "default", "break", "continue", "return",
  "throw", "new", "typeof", "instanceof", "delete", "void", "null", "undefined", "true", "false",
  "this", "Array", "Object", "String", "Number", "Boolean", "Map", "Set", "Date", "Math", "JSON",
  "RegExp", "Error", "Function", "Symbol", "Proxy", "Reflect", "WeakMap", "WeakSet", "Intl",
  "WebAssembly", "decodeURI", "encodeURI", "decodeURIComponent", "encodeURIComponent", "isNaN",
  "isFinite", "parseFloat", "parseInt", "eval", "isPrototypeOf", "hasOwnProperty", "valueOf",
  "toString", "toLocaleString", "constructor", "prototype",
  "interface", "type", "enum", "namespace", "declare", "module", "export", "import", "from", "as",
  "default", "extends", "implements", "public", "private", "protected", "readonly", "abstract",
  "static", "async", "await", "function", "const", "let", "var", "class",
  "axios", "clsx", "zod", "reactHookForm", "useForm", "useTranslations", "useLocale", "useRouter",
  "usePathname", "useSearchParams", "cn", "classNames", "twMerge", "z",
  "eventEmitter", "EVENT_TYPES"]

/-- The inclusion filter applied at every recording site of the program:
    `BUILT_INS.has(name) || isCommonPattern(name)`. -/
def isBuiltinOrCommon (name : String) : Bool :=
  BUILT_INS.contains name || isCommonPattern name

/-! ### Path utilities (Node `path` module on `/`-separated paths) -/

/-- Node `path.basename`. -/
def basename (p : String) : String :=
  String.mk ((p.data.reverse.takeWhile (fun c => c != '/')).reverse)

/-- Node `path.dirname`. -/
def dirname (p : String) : String :=
  match p.data.reverse.dropWhile (fun c => c != '/') with
  | [] => "."
  | _ :: rest => if rest = [] then "/" else String.mk rest.reverse

/-- Node `path.extname`: the suffix of the basename from its last dot, empty when
    the basename has no dot or only a leading one. -/
def extname (p : String) : String :=
  let b := (basename p).data
  let r := b.reverse.takeWhile (fun c => c != '.')
  if r.length == b.length then ""
  else if r.length + 1 == b.length then ""
  else String.mk ('.' :: r.reverse)

/-- Node `path.basename(p, path.extname(p))`. -/
def basenameNoExt (p : String) : String :=
  let b := (basename p).data
  String.mk (b.take (b.length - (extname p).data.length))

/-! ### src/utils.ts : isNextJsEntryPoint -/

def appRouterPatterns : List String := [
  "page.tsx", "page.ts", "page.jsx", "page.js",
  "layout.tsx", "layout.ts", "layout.jsx", "layout.js",
  "loading.tsx", "loading.ts", "loading.jsx", "loading.js",
  "error.tsx", "error.ts", "error.jsx", "error.js",
  "not-found.tsx", "not-found.ts", "not-found.jsx", "not-found.js",
  "route.ts", "route.js",
  "middleware.ts", "middleware.js",
  "template.tsx", "template.ts", "template.jsx", "template.js",
  "global-error.tsx", "global-error.ts", "global-error.jsx", "global-error.js",
  "default.tsx", "default.ts", "default.jsx", "default.js"]

def pageRouterPatterns : List String := [
  "_app.tsx", "_app.ts", "_app.jsx", "_app.js",
  "_document.tsx", "_document.ts", "_document.jsx", "_document.js",
  "_error.tsx", "_error.ts", "_error.jsx", "_error.js",
  "index.tsx", "index.ts", "index.jsx", "index.js"]

/-- Function `isNextJsEntryPoint` of src/utils.ts.  The cwd-relative path is the input
    path itself (modelling convention above). -/
def isNextJsEntryPoint (filePath : String) : Bool :=
  let fileName := basename filePath
  let dirName := dirname filePath
  let relativePath := filePath
  if appRouterPatterns.contains fileName || pageRouterPatterns.contains fileName then true
  else if containsSubstr relativePath "/app/" || containsSubstr relativePath "/pages/" then
    if startsWithList "[".data fileName.data && endsWithList "].tsx".data fileName.data then true
    else if startsWithList "[".data fileName.data && endsWithList "].ts".data fileName.data then true
    else if startsWithList "[".data fileName.data && endsWithList "].jsx".data fileName.data then true
    else if startsWithList "[".data fileName.data && endsWithList "].js".data fileName.data then true
    else if containsSubstr dirName "/api/" then true
    else true
  else false

/-! ### src/utils.ts : isLikelyComponent -/

/-- First character is an uppercase letter (`/^[A-Z]/`). -/
def startsUpperTest (name : String) : Bool :=
  match name.data with
  | c :: _ => c.isUpper
  | [] => false

/-- Regex `/return\s*\(?<[\s\S]*?>/` (the second, stricter pattern of the source is
    subsumed by the optional parenthesis): some occurrence of `return`,
    optional whitespace, an optional opening parenthesis, `<`, and a later `>`. -/
def hasJSXReturnTest (content : String) : Bool :=
  scanWithPrev
    (fun _ s =>
      startsWithList "return".data s &&
        (let rest := (s.drop 6).dropWhile jsWhitespace
         let rest2 := match rest with
           | '(' :: r => r
           | r => r
         match rest2 with
         | '<' :: r => r.contains '>'
         | _ => false))
    none content.data

/-- Regex `/<\w+\s+Fragment>/`. -/
def fragmentAltTest (content : String) : Bool :=
  scanWithPrev
    (fun _ s =>
      match s with
      | '<' :: rest =>
        let ws := rest.takeWhile isWordChar
        let rest2 := rest.drop ws.length
        let sp := rest2.takeWhile jsWhitespace
        ws ≠ [] && sp ≠ [] && startsWithList "Fragment>".data (rest2.drop sp.length)
      | _ => false)
    none content.data

/-- Function `isLikelyComponent` of src/utils.ts. -/
def isLikelyComponent (name content filePath : String) : Bool :=
  if !(startsUpperTest name) then false
  else
    let hasJSXReturn := hasJSXReturnTest content
    let hasReactHooks := reactHooksRegexTest content
    let usesJSXAttributes := containsSubstr content "className" || containsSubstr content "onClick"
      || containsSubstr content "onSubmit" || containsSubstr content "onChange"
      || containsSubstr content "style"
    let usesReactFragment := containsSubstr content "<Fragment>" || fragmentAltTest content
    let usesReactMemo := containsSubstr content "memo("
    let usesForwardRef := containsSubstr content "forwardRef("
    let usesUseClientDirective := containsSubstr content "\"use client\""
    let relativePath := toLowerStr filePath
    let isInComponentDir := containsSubstr relativePath "/components/"
      || containsSubstr relativePath "/component/" || containsSubstr relativePath "/ui/"
    let isNextJsPageOrLayout := isNextJsEntryPoint filePath
    if usesUseClientDirective then true
    else if isNextJsPageOrLayout then true
    else if hasJSXReturn then true
    else if hasReactHooks || usesJSXAttributes || usesReactFragment || usesReactMemo
        || usesForwardRef then true
    else if isInComponentDir && (hasReactHooks || usesJSXAttributes) then true
    else false

/-! ### src/ast-analyzer.ts : the syntax-tree model

A parsed node carries its `type` string, its `name` attribute when that JS
property is a string (as on `Identifier` / `JSXIdentifier` nodes), its start
line when position data is present, and its object-valued properties: each is
either a single child node or an array of child nodes, exactly the values the
generic `for (const key in node)` walk of `traverseAST` descends into
(string- and number-valued JS properties fail its `typeof === 'object'`
test and are therefore not part of the model's property list). -/

mutual
inductive Node : Type where
  | mk (ty : String) (nameAttr : Option String) (loc : Option Nat) (props : PropList)
inductive PropList : Type where
  | nil
  | consSingle (key : String) (child : Node) (rest : PropList)
  | consMany (key : String) (children : NodeList) (rest : PropList)
inductive NodeList : Type where
  | nil
  | cons (n : Node) (rest : NodeList)
end

def Node.ty : Node → String
  | .mk t _ _ _ => t

def Node.nameAttr : Node → Option String
  | .mk _ n _ _ => n

def Node.loc : Node → Option Nat
  | .mk _ _ l _ => l

def Node.props : Node → PropList
  | .mk _ _ _ ps => ps

/-- Reading a single-node JS property such as `node.callee` or `node.id`. -/
def PropList.findSingle : PropList → String → Option Node
  | .nil, _ => none
  | .consSingle k n rest, key => if k = key then some n else rest.findSingle key
  | .consMany k _ rest, key => if k = key then none else rest.findSingle key

/-- Reading an array-valued JS property such as `node.specifiers`. -/
def PropList.findMany : PropList → String → Option NodeList
  | .nil, _ => none
  | .consSingle k _ rest, key => if k = key then none else rest.findMany key
  | .consMany k ns rest, key => if k = key then some ns else rest.findMany key

/-- JS truthiness of `node.key` for an object-valued property. -/
def PropList.hasProp (ps : PropList) (key : String) : Bool :=
  (ps.findSingle key).isSome || (ps.findMany key).isSome

/-- JS `specifier.imported?.name || specifier.local?.name`: the first operand
    wins unless it is absent or the empty string (JS falsiness). -/
def jsOrName (a b : Option String) : Option String :=
  match a with
  | some s => if s = "" then b else some s
  | none => b

structure ASTDefinition where
  name : String
  dtype : String
  line : Nat
deriving DecidableEq, Repr

structure ASTUsage where
  name : String
  line : Nat
  context : String
deriving DecidableEq, Repr

/-- Per-file result of `ASTAnalyzer.analyzeFile`; the JS `Set` fields are
    insertion-ordered duplicate-free lists. -/
structure ASTResult where
  definitions : List ASTDefinition
  usages : List ASTUsage
  exports : List String
  imports : List String
deriving DecidableEq, Repr

def emptyASTResult : ASTResult := ⟨[], [], [], []⟩

/-- JS `Set.add`. -/
def addToSet (s : List String) (x : String) : List String :=
  if s.contains x then s else s ++ [x]

/-- The shared guard-and-push of every usage-producing handler. -/
def pushUsage (acc : ASTResult) (name : String) (line : Nat) (ctx : String) : ASTResult :=
  if isBuiltinOrCommon name then acc
  else { acc with usages := acc.usages ++ [⟨name, line, ctx⟩] }

/-- Method `ASTAnalyzer.isExported` walks the `parent` chain of the node; neither
    parser attaches parent pointers, so the walk terminates immediately and the
    check is constantly false. -/
def isExported (_ : Node) : Bool := false

/-- The specifier loop of `handleImportDeclaration`. -/
def importSpecifiersFold (line : Nat) (acc : ASTResult) : NodeList → ASTResult
  | .nil => acc
  | .cons spec rest =>
    let fromLocal :=
      (spec.props.findSingle "local").bind Node.nameAttr
    let acc' :=
      if spec.ty = "ImportSpecifier" then
        match jsOrName ((spec.props.findSingle "imported").bind Node.nameAttr) fromLocal with
        | some name =>
          if name ≠ "" && !(isBuiltinOrCommon name) then
            { acc with imports := addToSet acc.imports name,
                       definitions := acc.definitions ++ [⟨name, "import", line⟩] }
          else acc
        | none => acc
      else if spec.ty = "ImportDefaultSpecifier" || spec.ty = "ImportNamespaceSpecifier" then
        match fromLocal with
        | some name =>
          if name ≠ "" && !(isBuiltinOrCommon name) then
            { acc with imports := addToSet acc.imports name,
                       definitions := acc.definitions ++ [⟨name, "import", line⟩] }
          else acc
        | none => acc
      else acc
    importSpecifiersFold line acc' rest

/-- The specifier loop of `handleExportNamedDeclaration` (the export-list
    form that lists names without a declaration). -/
def exportSpecifiersFold (acc : ASTResult) : NodeList → ASTResult
  | .nil => acc
  | .cons spec rest =>
    let nm := jsOrName ((spec.props.findSingle "exported").bind Node.nameAttr)
                       ((spec.props.findSingle "local").bind Node.nameAttr)
    let acc' :=
      match nm with
      | some name =>
        if name ≠ "" && !(isBuiltinOrCommon name) then
          { acc with exports := addToSet acc.exports name }
        else acc
      | none => acc
    exportSpecifiersFold acc' rest

/-- The declarator loop of `handleVariableDeclaration`: the binding is a
    component or plain function when its initializer is function-valued
    (classified by `isLikelyComponent` called with the empty string as the
    file content, as in the source), else a variable. -/
def variableDeclaratorsFold (filePath : String) (line : Nat) (exported : Bool)
    (acc : ASTResult) : NodeList → ASTResult
  | .nil => acc
  | .cons decl rest =>
    let acc' :=
      match (decl.props.findSingle "id").bind Node.nameAttr with
      | some name =>
        if name = "" || isBuiltinOrCommon name then acc
        else
          let acc1 :=
            match decl.props.findSingle "init" with
            | some init =>
              if init.ty = "ArrowFunctionExpression" || init.ty = "FunctionExpression" then
                if isLikelyComponent name "" filePath then
                  { acc with definitions := acc.definitions ++ [⟨name, "component", line⟩] }
                else
                  { acc with definitions := acc.definitions ++ [⟨name, "function", line⟩] }
              else
                { acc with definitions := acc.definitions ++ [⟨name, "variable", line⟩] }
            | none => { acc with definitions := acc.definitions ++ [⟨name, "variable", line⟩] }
          if exported then { acc1 with exports := addToSet acc1.exports name } else acc1
      | none => acc
    variableDeclaratorsFold filePath line exported acc' rest

/- `ASTAnalyzer.traverseAST`: the type-directed switch runs first, then the
    generic walk over every object-valued property except `type` and `loc`
    descends into all children, so unrecognized node kinds are skipped over.
    `travKey` is the switch's descent into one named property (`Program.body`,
    an export wrapper's `declaration`, a `typeAnnotation`); a single node is
    traversed directly and an array element-wise, as in the source. -/
mutual
def travNode (filePath : String) (acc : ASTResult) : Node → ASTResult
  | .mk ty nm loc props =>
    let line := loc.getD 1
    let acc1 :=
      if ty = "Program" then travKey filePath acc "body" props
      else if ty = "ImportDeclaration" then
        importSpecifiersFold line acc ((props.findMany "specifiers").getD .nil)
      else if ty = "ExportNamedDeclaration" then
        if props.hasProp "declaration" then travKey filePath acc "declaration" props
        else if props.hasProp "specifiers" then
          exportSpecifiersFold acc ((props.findMany "specifiers").getD .nil)
        else acc
      else if ty = "ExportDefaultDeclaration" then
        if props.hasProp "declaration" then travKey filePath acc "declaration" props
        else acc
      else if ty = "VariableDeclaration" then
        variableDeclaratorsFold filePath line (isExported (.mk ty nm loc props)) acc
          ((props.findMany "declarations").getD .nil)
      else if ty = "FunctionDeclaration" then
        match (props.findSingle "id").bind Node.nameAttr with
        | some name =>
          if name = "" || isBuiltinOrCommon name then acc
          else
            let acc2 :=
              if isLikelyComponent name "" filePath then
                { acc with definitions := acc.definitions ++ [⟨name, "component", line⟩] }
              else
                { acc with definitions := acc.definitions ++ [⟨name, "function", line⟩] }
            if isExported (.mk ty nm loc props) then
              { acc2 with exports := addToSet acc2.exports name }
            else acc2
        | none => acc
      else if ty = "FunctionExpression" || ty = "ArrowFunctionExpression" then acc
      else if ty = "CallExpression" then
        match props.findSingle "callee" with
        | some callee =>
          if callee.ty = "Identifier" then
            match callee.nameAttr with
            | some name => pushUsage acc name line "call"
            | none => acc
          else acc
        | none => acc
      else if ty = "JSXElement" then
        match props.findSingle "openingElement" with
        | some oe =>
          match oe.props.findSingle "name" with
          | some nmNode =>
            if nmNode.ty = "JSXIdentifier" then
              match nmNode.nameAttr with
              | some name => pushUsage acc name line "jsx"
              | none => acc
            else acc
          | none => acc
        | none => acc
      else if ty = "JSXIdentifier" then
        match nm with
        | some name => pushUsage acc name line "jsx"
        | none => acc
      else if ty = "Identifier" then
        match nm with
        | some name => pushUsage acc name line "reference"
        | none => acc
      else if ty = "MemberExpression" then
        match props.findSingle "object" with
        | some obj =>
          if obj.ty = "Identifier" then
            match obj.nameAttr with
            | some name => pushUsage acc name line "property"
            | none => acc
          else acc
        | none => acc
      else if ty = "ObjectProperty" then
        match props.findSingle "value" with
        | some v =>
          if v.ty = "Identifier" then
            match v.nameAttr with
            | some name => pushUsage acc name line "property"
            | none => acc
          else acc
        | none => acc
      else if ty = "SpreadElement" then
        match props.findSingle "argument" with
        | some arg =>
          if arg.ty = "Identifier" then
            match arg.nameAttr with
            | some name => pushUsage acc name line "spread"
            | none => acc
          else acc
        | none => acc
      else if ty = "TypeScript" then
        if props.hasProp "typeAnnotation" then travKey filePath acc "typeAnnotation" props
        else acc
      else acc
    genericProps filePath acc1 props

def travKey (filePath : String) (acc : ASTResult) (key : String) : PropList → ASTResult
  | .nil => acc
  | .consSingle k n rest =>
    if k = key then travNode filePath acc n else travKey filePath acc key rest
  | .consMany k ns rest =>
    if k = key then travList filePath acc ns else travKey filePath acc key rest

def genericProps (filePath : String) (acc : ASTResult) : PropList → ASTResult
  | .nil => acc
  | .consSingle k n rest =>
    genericProps filePath
      (if k != "type" && k != "loc" then travNode filePath acc n else acc) rest
  | .consMany k ns rest =>
    genericProps filePath
      (if k != "type" && k != "loc" then travList filePath acc ns else acc) rest

def travList (filePath : String) (acc : ASTResult) : NodeList → ASTResult
  | .nil => acc
  | .cons n rest => travList filePath (travNode filePath acc n) rest
end

/-! ### JS `Map` of name → occurrence list (insertion-ordered) -/

structure UsageEntry where
  file : String
  line : Nat
deriving DecidableEq, Repr

def mapGet {α : Type} : List (String × List α) → String → Option (List α)
  | [], _ => none
  | (k, vs) :: rest, key => if k = key then some vs else mapGet rest key

/-- JS `if (!map.has(k)) map.set(k, []); map.get(k).push(v)`. -/
def mapPush {α : Type} : List (String × List α) → String → α → List (String × List α)
  | [], key, v => [(key, [v])]
  | (k, vs) :: rest, key, v =>
    if k = key then (k, vs ++ [v]) :: rest else (k, vs) :: mapPush rest key v

/-! ### src/ast-analyzer.ts : analyzeFile and analyzeAllFiles -/

/-- Method `ASTAnalyzer.analyzeFile`: the read sits outside the try block, so an
    unreadable file raises out of the whole run; the parse sits inside it, so a
    parse failure is caught, logs a warning (returned as the second component,
    modelling `console.warn`) and contributes the empty result. -/
def analyzeFileAST (fsRead : String → Option String)
    (parseOracle : String → String → Except String Node) (filePath : String) :
    Except Unit (ASTResult × List String) :=
  match fsRead filePath with
  | none => .error ()
  | some content =>
    match parseOracle (extname filePath) content with
    | .error e => .ok (emptyASTResult, ["Failed to parse " ++ filePath ++ ": " ++ e])
    | .ok ast => .ok (travNode filePath emptyASTResult ast, [])

/-- Aggregate of `ASTAnalyzer.analyzeAllFiles`: definitions keyed by
    `relativePath ++ ":" ++ name`, usages keyed by name. -/
structure ASTAll where
  definitions : List (String × List ASTDefinition)
  usages : List (String × List UsageEntry)
  exports : List String
  imports : List String
  warnings : List String
deriving DecidableEq, Repr

def emptyASTAll : ASTAll := ⟨[], [], [], [], []⟩

def pushDefs (relPath : String) (m : List (String × List ASTDefinition)) :
    List ASTDefinition → List (String × List ASTDefinition)
  | [] => m
  | d :: rest => pushDefs relPath (mapPush m (relPath ++ ":" ++ d.name) d) rest

def pushUsages (relPath : String) (m : List (String × List UsageEntry)) :
    List ASTUsage → List (String × List UsageEntry)
  | [] => m
  | u :: rest => pushUsages relPath (mapPush m u.name ⟨relPath, u.line⟩) rest

def addAllToSet (s : List String) : List String → List String
  | [] => s
  | x :: rest => addAllToSet (addToSet s x) rest

/-- The per-file loop of `ASTAnalyzer.analyzeAllFiles`; the cwd-relative path
    of a file is the path itself (modelling convention). -/
def analyzeAllFilesFrom (fsRead : String → Option String)
    (parseOracle : String → String → Except String Node) (acc : ASTAll) :
    List String → Except Unit ASTAll
  | [] => .ok acc
  | f :: rest =>
    match analyzeFileAST fsRead parseOracle f with
    | .error e => .error e
    | .ok (r, ws) =>
      analyzeAllFilesFrom fsRead parseOracle
        { definitions := pushDefs f acc.definitions r.definitions
          usages := pushUsages f acc.usages r.usages
          exports := addAllToSet acc.exports r.exports
          imports := addAllToSet acc.imports r.imports
          warnings := acc.warnings ++ ws } rest

def analyzeAllFilesAST (fsRead : String → Option String)
    (parseOracle : String → String → Except String Node) (files : List String) :
    Except Unit ASTAll :=
  analyzeAllFilesFrom fsRead parseOracle emptyASTAll files

/-! ### src/analyzer.ts : result structure and the AST-mode pass -/

structure CodeIssue where
  name : String
  file : String
  itype : String
  line : Option Nat
deriving DecidableEq, Repr

structure FileIssue where
  path : String
  size : Nat
deriving DecidableEq, Repr

structure AnalysisResults where
  unusedComponents : List CodeIssue
  unusedFunctions : List CodeIssue
  unusedVariables : List CodeIssue
  unusedFiles : List FileIssue
  unusedExports : List CodeIssue
  unusedImports : List CodeIssue
  totalIssues : Nat
deriving DecidableEq, Repr

def emptyAnalysis : AnalysisResults := ⟨[], [], [], [], [], [], 0⟩

/-- The `switch (def.type)` of `performASTAnalysis` (no case routes other
    definition kinds, which are silently dropped). -/
def pushIssueByType (a : AnalysisResults) (issue : CodeIssue) : AnalysisResults :=
  if issue.itype = "component" then { a with unusedComponents := a.unusedComponents ++ [issue] }
  else if issue.itype = "function" then { a with unusedFunctions := a.unusedFunctions ++ [issue] }
  else if issue.itype = "variable" then { a with unusedVariables := a.unusedVariables ++ [issue] }
  else if issue.itype = "import" then { a with unusedImports := a.unusedImports ++ [issue] }
  else a

/-- Method `DeadCodeAnalyzer.performASTAnalysis` checks whether usages of a
    definition's name are recorded anywhere at all (`usages && usages.length
    > 0`, an empty list being truthy but of zero length). -/
def astModeUsed (usages : List (String × List UsageEntry)) (name : String) : Bool :=
  match mapGet usages name with
  | some l => decide (l.length > 0)
  | none => false

def processDefEntry (usages : List (String × List UsageEntry)) (key : String)
    (a : AnalysisResults) : List ASTDefinition → AnalysisResults
  | [] => a
  | d :: rest =>
    let parts := splitOnStr ":" key
    let filePath := (parts.get? 0).getD ""
    let name := (parts.get? 1).getD ""
    let a' :=
      if astModeUsed usages name then a
      else pushIssueByType a ⟨name, filePath, d.dtype, some d.line⟩
    processDefEntry usages key a' rest

def processDefs (usages : List (String × List UsageEntry)) (a : AnalysisResults) :
    List (String × List ASTDefinition) → AnalysisResults
  | [] => a
  | (key, defs) :: rest => processDefs usages (processDefEntry usages key a defs) rest

/-- The definition-processing loop of `DeadCodeAnalyzer.performASTAnalysis`
    (src/analyzer.ts lines 127-160). -/
def performASTAnalysis (all : ASTAll) : AnalysisResults :=
  processDefs all.usages emptyAnalysis all.definitions

/-! ### src/analyzer.ts : comment stripping and the top-level-variable test -/

def openBraceChar : Char := Char.ofNat 123

def closeBraceChar : Char := Char.ofNat 125

def apostropheChar : Char := Char.ofNat 39

def backtickChar : Char := Char.ofNat 96

/-- Regex `/\/\/.*$/gm`: per line, everything from the first `//` is removed. -/
def cutLineComment : List Char → List Char
  | [] => []
  | '/' :: '/' :: _ => []
  | c :: rest => c :: cutLineComment rest

def stripLineComments (content : String) : String :=
  joinWith "\n"
    ((splitOnStr "\n" content).map (fun l => String.mk (cutLineComment l.data)))

/-- Position just after the next `*/`, if any. -/
def findBlockClose : List Char → Option (List Char)
  | [] => none
  | [_] => none
  | c :: d :: rest =>
    if c = '*' && d = '/' then some rest else findBlockClose (d :: rest)

/- `/\/\*[\s\S]*?\*\//g`: each `/*` up to the nearest `*/` is removed; an
   unterminated opener does not match and is left in place (hence the
   lookahead).  `blockCommentSkip` consumes up to and including the close. -/
mutual
def stripBlockComments : List Char → List Char
  | [] => []
  | [c] => [c]
  | c :: d :: rest =>
    if c = '/' && d = '*' then
      if (findBlockClose rest).isSome then blockCommentSkip rest
      else c :: d :: rest
    else c :: stripBlockComments (d :: rest)

def blockCommentSkip : List Char → List Char
  | [] => []
  | [_] => []
  | c :: d :: rest =>
    if c = '*' && d = '/' then stripBlockComments rest
    else blockCommentSkip (d :: rest)
end

/-- Method `DeadCodeAnalyzer.removeComments`: single-line comments first, then block
    comments, with the documented disregard for string/regex literals. -/
def removeComments (content : String) : String :=
  String.mk (stripBlockComments (stripLineComments content).data)

def textAfterLastNewline (l : List Char) : List Char :=
  (l.reverse.takeWhile (fun c => c != '\n')).reverse

/-- Method `DeadCodeAnalyzer.isTopLevelVariable`: brace counting over the prefix plus
    a declaration-keyword check on the current line. -/
def isTopLevelVariable (content : String) (idx : Nat) : Bool :=
  let beforeContent := content.data.take idx
  let currentLine := textAfterLastNewline beforeContent
  let openBraces := beforeContent.count openBraceChar
  let closeBraces := beforeContent.count closeBraceChar
  if openBraces > closeBraces then false
  else
    let trimmed := trimStr (String.mk currentLine)
    startsWithList "const ".data trimmed.data || startsWithList "let ".data trimmed.data
      || startsWithList "var ".data trimmed.data

/-- JS `content.substring(0, idx).split('\n').length`. -/
def lineOfIndex (content : String) (idx : Nat) : Nat :=
  (content.data.take idx).count '\n' + 1

/-! ### src/analyzer.ts : the regex strategy over match-stream oracles

The regex engine executing the `PATTERNS` tables of src/config.ts is external
to the embedded logic; the stream of matches each table produces on a given
content is an oracle, and what the analyzer does with a stream is embedded
faithfully.  Properties quantified over all oracles hold in particular for
the streams the real engine produces. -/

/-- One definition-pattern match: first capture group and match index. -/
structure RMatch where
  name : String
  idx : Nat
deriving DecidableEq, Repr

/-- One import-pattern match: the capture groups `match[1]`, `match[2]`,
    `match[3]` inspected by the import branch. -/
structure RImportMatch where
  g1 : Option String
  g2 : Option String
  g3 : Option String
deriving DecidableEq, Repr

structure RegexOracles where
  usageMatches : String → List RMatch
  componentMatches : String → List RMatch
  functionMatches : String → List RMatch
  variableMatches : String → List RMatch
  importMatches : String → List RImportMatch
  typeImportMatches : String → List String
deriving Inhabited

/-- JS truthiness of a possibly-absent string (empty is falsy). -/
def jsTruthy : Option String → Bool
  | some s => s ≠ ""
  | none => false

/-- The inner loop of `buildUsageMap`: empty captures and filtered names are
    skipped, every other capture is recorded under its name. -/
def buildUsageEntries (file content : String) (m : List (String × List UsageEntry)) :
    List RMatch → List (String × List UsageEntry)
  | [] => m
  | r :: rest =>
    let m' :=
      if r.name = "" then m
      else if isBuiltinOrCommon r.name then m
      else mapPush m r.name ⟨file, lineOfIndex content r.idx⟩
    buildUsageEntries file content m' rest

def buildUsageMapFrom (fsRead : String → Option String) (oracles : RegexOracles)
    (m : List (String × List UsageEntry)) :
    List String → Except Unit (List (String × List UsageEntry))
  | [] => .ok m
  | f :: rest =>
    match fsRead f with
    | none => .error ()
    | some content =>
      buildUsageMapFrom fsRead oracles
        (buildUsageEntries f content m (oracles.usageMatches content)) rest

/-- Method `DeadCodeAnalyzer.buildUsageMap`; the uncaught `readFileSync` makes an
    unreadable file abort the map construction. -/
def buildUsageMapR (fsRead : String → Option String) (oracles : RegexOracles)
    (files : List String) : Except Unit (List (String × List UsageEntry)) :=
  buildUsageMapFrom fsRead oracles [] files

/-- The per-file definition sets of `DeadCodeAnalyzer.analyzeFile`. -/
structure FileDefinitions where
  components : List String
  functions : List String
  vars : List String
  imports : List String
  exports : List String
deriving DecidableEq, Repr

def emptyFileDefinitions : FileDefinitions := ⟨[], [], [], [], []⟩

def componentLoop (filePath content : String) (defs : FileDefinitions) :
    List RMatch → FileDefinitions
  | [] => defs
  | r :: rest =>
    let defs' :=
      if !(isBuiltinOrCommon r.name) then
        if isLikelyComponent r.name content filePath then
          let d1 := { defs with components := addToSet defs.components r.name }
          if containsSubstr content ("export default " ++ r.name)
              || containsSubstr content ("export function " ++ r.name)
              || containsSubstr content ("export const " ++ r.name) then
            { d1 with exports := addToSet d1.exports r.name }
          else d1
        else
          let d1 := { defs with functions := addToSet defs.functions r.name }
          if containsSubstr content ("export function " ++ r.name)
              || containsSubstr content ("export const " ++ r.name) then
            { d1 with exports := addToSet d1.exports r.name }
          else d1
      else defs
    componentLoop filePath content defs' rest

def functionLoop (content : String) (defs : FileDefinitions) :
    List RMatch → FileDefinitions
  | [] => defs
  | r :: rest =>
    let defs' :=
      if !(isBuiltinOrCommon r.name) && !(defs.components.contains r.name) then
        let d1 := { defs with functions := addToSet defs.functions r.name }
        if containsSubstr content ("export function " ++ r.name)
            || containsSubstr content ("export const " ++ r.name) then
          { d1 with exports := addToSet d1.exports r.name }
        else d1
      else defs
    functionLoop content defs' rest

def variableLoop (content cwc : String) (defs : FileDefinitions) :
    List RMatch → FileDefinitions
  | [] => defs
  | r :: rest =>
    let defs' :=
      if !(isBuiltinOrCommon r.name) then
        if !(defs.functions.contains r.name) && !(defs.components.contains r.name) then
          if isTopLevelVariable cwc r.idx then
            let d1 := { defs with vars := addToSet defs.vars r.name }
            if containsSubstr content ("export const " ++ r.name)
                || containsSubstr content ("export let " ++ r.name)
                || containsSubstr content ("export var " ++ r.name) then
              { d1 with exports := addToSet d1.exports r.name }
            else d1
          else defs
        else defs
      else defs
    variableLoop content cwc defs' rest

/-- JS `imp.split(' as ')[0].trim()` applied to each comma-separated piece. -/
def namedImportNames (g : String) : List String :=
  ((splitOnStr "," g).map trimStr).map (fun imp => trimStr ((splitOnStr " as " imp).headD ""))

def addImportNames (defs : FileDefinitions) : List String → FileDefinitions
  | [] => defs
  | n :: rest =>
    addImportNames
      (if !(isBuiltinOrCommon n) then { defs with imports := addToSet defs.imports n }
       else defs) rest

def importLoop (defs : FileDefinitions) : List RImportMatch → FileDefinitions
  | [] => defs
  | m :: rest =>
    let defs' :=
      if jsTruthy m.g1 then addImportNames defs (namedImportNames (m.g1.getD ""))
      else if jsTruthy m.g2 then
        let n := m.g2.getD ""
        if !(isBuiltinOrCommon n) then { defs with imports := addToSet defs.imports n } else defs
      else if jsTruthy m.g3 then
        let n := m.g3.getD ""
        if !(isBuiltinOrCommon n) then { defs with imports := addToSet defs.imports n } else defs
      else defs
    importLoop defs' rest

def typeImportLoop (defs : FileDefinitions) : List String → FileDefinitions
  | [] => defs
  | t :: rest => typeImportLoop (addImportNames defs (namedImportNames t)) rest

/-- The definition-extraction part of `DeadCodeAnalyzer.analyzeFile`:
    component, function and variable patterns run on the comment-stripped
    text, import and type-import patterns on the raw text. -/
def analyzeFileDefs (oracles : RegexOracles) (filePath content : String) : FileDefinitions :=
  let cwc := removeComments content
  let d1 := componentLoop filePath content emptyFileDefinitions (oracles.componentMatches cwc)
  let d2 := functionLoop content d1 (oracles.functionMatches cwc)
  let d3 := variableLoop content cwc d2 (oracles.variableMatches cwc)
  let d4 := importLoop d3 (oracles.importMatches content)
  typeImportLoop d4 (oracles.typeImportMatches content)

/-! ### src/analyzer.ts : the cross-reference decision -/

/-- The `isUsed` closure of `checkUnusedDefinitions` (src/analyzer.ts lines
    400-442), with its ordered first-match-wins rules. -/
def isUsedRegex (usageMap : List (String × List UsageEntry)) (exportsSet : List String)
    (filePath content name : String) : Bool :=
  let usages := mapGet usageMap name
  let hasLocalUsage := wordCallTest name content || jsxUsageTest name content
    || bareWordTest name content
  if (usages.getD []).any (fun u => u.file != filePath) then true
  else if hasLocalUsage then true
  else if containsSubstr content ("export default " ++ name) then true
  else if exportsSet.contains name && (usages.getD []).length == 0 then false
  else if reactHooksRegexTest name then true
  else false

def checkComponentsLoop (usageMap : List (String × List UsageEntry))
    (exportsSet : List String) (filePath content : String) (a : AnalysisResults) :
    List String → AnalysisResults
  | [] => a
  | c :: rest =>
    let a' :=
      if !(isUsedRegex usageMap exportsSet filePath content c) then
        { a with unusedComponents := a.unusedComponents ++ [⟨c, filePath, "component", none⟩] }
      else a
    checkComponentsLoop usageMap exportsSet filePath content a' rest

def checkFunctionsLoop (usageMap : List (String × List UsageEntry))
    (exportsSet : List String) (filePath content : String) (a : AnalysisResults) :
    List String → AnalysisResults
  | [] => a
  | f :: rest =>
    let a' :=
      if !(isUsedRegex usageMap exportsSet filePath content f) then
        if !(wordCallTest f content) then
          { a with unusedFunctions := a.unusedFunctions ++ [⟨f, filePath, "function", none⟩] }
        else a
      else a
    checkFunctionsLoop usageMap exportsSet filePath content a' rest

def checkVariablesLoop (usageMap : List (String × List UsageEntry))
    (exportsSet : List String) (filePath content : String) (a : AnalysisResults) :
    List String → AnalysisResults
  | [] => a
  | v :: rest =>
    let a' :=
      if !(isUsedRegex usageMap exportsSet filePath content v) then
        { a with unusedVariables := a.unusedVariables ++ [⟨v, filePath, "variable", none⟩] }
      else a
    checkVariablesLoop usageMap exportsSet filePath content a' rest

def checkImportsLoop (usageMap : List (String × List UsageEntry))
    (filePath content : String) (a : AnalysisResults) : List String → AnalysisResults
  | [] => a
  | n :: rest =>
    let usages := (mapGet usageMap n).getD []
    let a' :=
      if usages.length == 0
          || (usages.length == 1 && containsSubstr content ("import " ++ n)) then
        { a with unusedImports := a.unusedImports ++ [⟨n, filePath, "import", none⟩] }
      else a
    checkImportsLoop usageMap filePath content a' rest

/-- Method `DeadCodeAnalyzer.checkUnusedDefinitions`. -/
def checkUnusedDefinitions (usageMap : List (String × List UsageEntry))
    (defs : FileDefinitions) (filePath content : String) (a : AnalysisResults) :
    AnalysisResults :=
  let a1 := checkComponentsLoop usageMap defs.exports filePath content a defs.components
  let a2 := checkFunctionsLoop usageMap defs.exports filePath content a1 defs.functions
  let a3 := checkVariablesLoop usageMap defs.exports filePath content a2 defs.vars
  checkImportsLoop usageMap filePath content a3 defs.imports

/-! ### src/analyzer.ts : the unused-file detector -/

def quoteCharTest (c : Char) : Bool :=
  c == apostropheChar || c == '"' || c == backtickChar

/-- Matching the inserted candidate path, whose only live regex metacharacter
    on real file names is `.` (any single character). -/
def matchDotPattern : List Char → List Char → Option (List Char)
  | [], rest => some rest
  | _ :: _, [] => none
  | p :: ps, c :: cs =>
    if p = '.' then matchDotPattern ps cs
    else if p = c then matchDotPattern ps cs
    else none

/-- The import-matching regex the source builds with
    `new RegExp ("from\\s+..." )` written inside a template literal: there the
    escape `\s` cooks to the plain letter `s`, so the compiled pattern is
    `from` followed by `s+` (one or more letters `s`), a quote, the candidate
    path, and a quote — not the intended whitespace. -/
def brokenImportAt (p : List Char) (s : List Char) : Bool :=
  if startsWithList "from".data s then
    let rest := s.drop 4
    let sRun := rest.takeWhile (fun c => c == 's')
    if decide (1 ≤ sRun.length) then
      match rest.drop sRun.length with
      | q :: rest2 =>
        if quoteCharTest q then
          match matchDotPattern p rest2 with
          | some (q2 :: _) => quoteCharTest q2
          | _ => false
        else false
      | [] => false
    else false
  else false

def brokenImportTest (p content : String) : Bool :=
  scanWithPrev (fun _ s => brokenImportAt p.data s) none content.data

/-- Regex `/export\s+(?:default|{|const|function|class|interface|type)/`. -/
def exportKeywordTest (content : String) : Bool :=
  scanWithPrev
    (fun _ s =>
      startsWithList "export".data s &&
        (let rest := s.drop 6
         let ws := rest.takeWhile jsWhitespace
         ws ≠ [] &&
           (let rest2 := rest.drop ws.length
            startsWithList "default".data rest2 || startsWithList [openBraceChar] rest2 ||
            startsWithList "const".data rest2 || startsWithList "function".data rest2 ||
            startsWithList "class".data rest2 || startsWithList "interface".data rest2 ||
            startsWithList "type".data rest2)))
    none content.data

def slashify (s : String) : String :=
  String.mk (s.data.map (fun c => if c = '\\' then '/' else c))

/-- The `/\.[tj]sx?$/` extension strip of the source-relative spelling. -/
def stripScriptExt (s : String) : String :=
  if endsWithList ".tsx".data s.data || endsWithList ".jsx".data s.data then
    String.mk (s.data.take (s.data.length - 4))
  else if endsWithList ".ts".data s.data || endsWithList ".js".data s.data then
    String.mk (s.data.take (s.data.length - 3))
  else s

/-- The candidate import-path spellings synthesized for a file. -/
def possibleImportPathsOf (file : String) : List String :=
  let fileName := basename file
  let fileNameWithoutExt := basenameNoExt file
  let relFromSrc := "./" ++ stripScriptExt (slashify file)
  ["./" ++ fileNameWithoutExt, "./" ++ fileName, fileNameWithoutExt, fileName,
   relFromSrc, relFromSrc ++ extname file]

def isImportedByOthers (fsRead : String → Option String) (file : String) :
    List String → Except Unit Bool
  | [] => .ok false
  | o :: rest =>
    if o = file then isImportedByOthers fsRead file rest
    else
      match fsRead o with
      | none => .error ()
      | some content =>
        if (possibleImportPathsOf file).any (fun p => brokenImportTest p content) then .ok true
        else isImportedByOthers fsRead file rest

def mainFileNames : List String :=
  ["index.ts", "index.tsx", "index.js", "index.jsx",
   "main.ts", "main.tsx", "main.js", "main.jsx"]

/-- The per-file body of `DeadCodeAnalyzer.findUnusedFiles`; a stat failure is
    caught (warning only), while the uncaught reads abort. -/
def findUnusedFilesFrom (fsRead : String → Option String) (stat : String → Option Nat)
    (allFiles : List String) (acc : List FileIssue) :
    List String → Except Unit (List FileIssue)
  | [] => .ok acc
  | f :: rest =>
    let relativePath := f
    let fileName := basename f
    let fileDir := dirname f
    match isImportedByOthers fsRead f allFiles with
    | .error e => .error e
    | .ok isImported =>
      match fsRead f with
      | none => .error ()
      | some fileContent =>
        let isEntryPoint := isNextJsEntryPoint f
        let hasExports := exportKeywordTest fileContent
        let isMainFile := mainFileNames.contains fileName
        let isConfigFile := containsSubstr fileName "config" || containsSubstr fileName "Config"
          || containsSubstr fileName "setup" || containsSubstr fileName "Setup"
        let isUtilityFile := containsSubstr fileDir "utils" || containsSubstr fileDir "lib"
          || containsSubstr fileDir "helpers" || containsSubstr fileDir "services"
          || containsSubstr fileDir "hooks" || containsSubstr fileDir "components"
        let acc' :=
          if !isImported && !isEntryPoint && !hasExports && !isMainFile && !isConfigFile
              && !isUtilityFile then
            match stat f with
            | some sz => acc ++ [⟨relativePath, sz⟩]
            | none => acc
          else acc
        findUnusedFilesFrom fsRead stat allFiles acc' rest

def findUnusedFilesE (fsRead : String → Option String) (stat : String → Option Nat)
    (allFiles : List String) : Except Unit (List FileIssue) :=
  findUnusedFilesFrom fsRead stat allFiles [] allFiles

/-! ### src/analyzer.ts : the two full runs of findDeadCode -/

/-- Method `DeadCodeAnalyzer.analyzeFile` (cross-reference part): uncaught read, then
    definition extraction and the unused-definition checks. -/
def analyzeFileR (fsRead : String → Option String) (oracles : RegexOracles)
    (usageMap : List (String × List UsageEntry)) (filePath : String)
    (a : AnalysisResults) : Except Unit AnalysisResults :=
  match fsRead filePath with
  | none => .error ()
  | some content =>
    .ok (checkUnusedDefinitions usageMap (analyzeFileDefs oracles filePath content)
          filePath content a)

def analyzeFilesR (fsRead : String → Option String) (oracles : RegexOracles)
    (usageMap : List (String × List UsageEntry)) (a : AnalysisResults) :
    List String → Except Unit AnalysisResults
  | [] => .ok a
  | f :: rest =>
    match analyzeFileR fsRead oracles usageMap f a with
    | .error e => .error e
    | .ok a' => analyzeFilesR fsRead oracles usageMap a' rest

/-- The totals of `generateDeadCodeReport` (unused exports are not counted). -/
def computeTotals (a : AnalysisResults) : AnalysisResults :=
  { a with totalIssues := a.unusedComponents.length + a.unusedFunctions.length
      + a.unusedVariables.length + a.unusedFiles.length + a.unusedImports.length }

/-- Method `findDeadCode` with `analysisMode = 'regex'`: usage map, per-file
    cross-reference, unused-file detection, totals. -/
def runRegexMode (fsRead : String → Option String) (oracles : RegexOracles)
    (stat : String → Option Nat) (files : List String) : Except Unit AnalysisResults :=
  match buildUsageMapR fsRead oracles files with
  | .error e => .error e
  | .ok usageMap =>
    match analyzeFilesR fsRead oracles usageMap emptyAnalysis files with
    | .error e => .error e
    | .ok a =>
      match findUnusedFilesE fsRead stat files with
      | .error e => .error e
      | .ok fi => .ok (computeTotals { a with unusedFiles := fi })

/-- Method `findDeadCode` with `analysisMode = 'ast'`. -/
def runASTMode (fsRead : String → Option String)
    (parseOracle : String → String → Except String Node) (stat : String → Option Nat)
    (files : List String) : Except Unit AnalysisResults :=
  match analyzeAllFilesAST fsRead parseOracle files with
  | .error e => .error e
  | .ok all =>
    match findUnusedFilesE fsRead stat files with
    | .error e => .error e
    | .ok fi => .ok (computeTotals { performASTAnalysis all with unusedFiles := fi })

/-! ### Concrete instances used by the theorems below -/

/-- The `Identifier` node of `function foo(){}`. -/
def idFoo : Node := .mk "Identifier" (some "foo") (some 1) .nil

def blockFoo : Node := .mk "BlockStatement" none (some 1) (.consMany "body" .nil .nil)

/-- The `FunctionDeclaration` node of `function foo(){}` as the parsers shape
    it: an `id` child, a `params` array and a `body` block. -/
def fdFoo : Node := .mk "FunctionDeclaration" none (some 1)
  (.consSingle "id" idFoo (.consMany "params" .nil (.consSingle "body" blockFoo .nil)))

def progFoo : Node := .mk "Program" none (some 1) (.consMany "body" (.cons fdFoo .nil) .nil)

/-- A file set holding exactly `a.ts` with content `function foo(){}`. -/
def fsFoo : String → Option String :=
  fun s => if s = "a.ts" then some "function foo(){}" else none

/-- The parse oracle returning the tree the parsers produce on that content. -/
def parseFoo : String → String → Except String Node := fun _ _ => .ok progFoo

def statSixteen : String → Option Nat := fun _ => some 16

/-- The match streams the `PATTERNS` tables of src/config.ts produce on
    `function foo(){}`: the function table captures `foo` (match index 0), the
    usage tables capture the keyword `function` and the defining occurrence of
    `foo` (match index 9); the other tables produce nothing. -/
def oraclesFoo : RegexOracles :=
  { usageMatches := fun c =>
      if c = "function foo(){}" then
        [⟨"function", 0⟩, ⟨"foo", 9⟩, ⟨"function", 0⟩, ⟨"foo", 9⟩, ⟨"foo", 9⟩]
      else []
    componentMatches := fun _ => []
    functionMatches := fun c => if c = "function foo(){}" then [⟨"foo", 0⟩] else []
    variableMatches := fun _ => []
    importMatches := fun _ => []
    typeImportMatches := fun _ => [] }

/-- Two files: `a.ts` exports nothing, `b.ts` textually imports `./a`. -/
def fsImportPair : String → Option String := fun s =>
  if s = "a.ts" then some "const q = 1;\n"
  else if s = "b.ts" then some "import { x } from './a';\nexport const y = x;\n"
  else none

def statThirteen : String → Option Nat := fun _ => some 13

/-- A file set where only `a.ts` is readable. -/
def fsOnlyA : String → Option String := fun s => if s = "a.ts" then some "x" else none

/-- A parse oracle that always fails. -/
def parseNever : String → String → Except String Node := fun _ _ => .error "bad"

/-- Match-stream oracles that produce nothing. -/
def oraclesEmpty : RegexOracles :=
  ⟨fun _ => [], fun _ => [], fun _ => [], fun _ => [], fun _ => [], fun _ => []⟩

/-! ### Predicates used by theorem statements -/

/-- Every definition and usage a per-file structural analysis records passes
    the builtin/common-pattern filter. -/
def resOk (r : ASTResult) : Bool :=
  r.definitions.all (fun d => !(isBuiltinOrCommon d.name)) &&
  r.usages.all (fun u => !(isBuiltinOrCommon u.name))

/-- Every name keyed in a usage map passes the filter. -/
def mapOk (m : List (String × List UsageEntry)) : Bool :=
  m.all (fun kv => !(isBuiltinOrCommon kv.1))

/-- A usage-map construction that either aborted or produced a filtered map. -/
def exceptMapOk : Except Unit (List (String × List UsageEntry)) → Bool
  | .error _ => true
  | .ok m => mapOk m

/-- Every name in the four Definition lists of a regex-strategy file analysis
    passes the filter (the exported set is not a Definition list). -/
def defsOk (d : FileDefinitions) : Bool :=
  d.components.all (fun n => !(isBuiltinOrCommon n)) &&
  d.functions.all (fun n => !(isBuiltinOrCommon n)) &&
  d.vars.all (fun n => !(isBuiltinOrCommon n)) &&
  d.imports.all (fun n => !(isBuiltinOrCommon n))

/-! ### Subterm relations on the syntax-tree model (for the traversal claims) -/

/-- A node is an element of a node-array. -/
inductive InNodeList : Node → NodeList → Prop where
  | here (n : Node) (rest : NodeList) : InNodeList n (.cons n rest)
  | there (m : Node) (n : Node) (rest : NodeList) (h : InNodeList n rest) :
      InNodeList n (.cons m rest)

/-- A node sits in a property list under a descended key (not `type`/`loc`). -/
inductive InPropList : Node → PropList → Prop where
  | hereSingle (k : String) (n : Node) (rest : PropList)
      (hk1 : k ≠ "type") (hk2 : k ≠ "loc") : InPropList n (.consSingle k n rest)
  | hereMany (k : String) (n : Node) (ns : NodeList) (rest : PropList)
      (hk1 : k ≠ "type") (hk2 : k ≠ "loc") (h : InNodeList n ns) :
      InPropList n (.consMany k ns rest)
  | thereSingle (k : String) (m : Node) (n : Node) (rest : PropList)
      (h : InPropList n rest) : InPropList n (.consSingle k m rest)
  | thereMany (k : String) (ms : NodeList) (n : Node) (rest : PropList)
      (h : InPropList n rest) : InPropList n (.consMany k ms rest)

/-- Node `n` occurs in the tree `t` (reflexively, through descended properties). -/
inductive SubNode : Node → Node → Prop where
  | refl (n : Node) : SubNode n n
  | step (c n : Node) (ty : String) (nm : Option String) (loc : Option Nat)
      (props : PropList) (hin : InPropList c props) (hsub : SubNode n c) :
      SubNode n (.mk ty nm loc props)

/-- Fragment `const bar = ...;` as a parsed tree. -/
def idBar : Node := .mk "Identifier" (some "bar") (some 2) .nil

def declBar : Node := .mk "VariableDeclarator" none (some 2) (.consSingle "id" idBar .nil)

def vdBar : Node := .mk "VariableDeclaration" none (some 2)
  (.consMany "declarations" (.cons declBar .nil) .nil)

/-- Whether a run completed with a result. -/
def isOkE {α : Type} : Except Unit α → Bool
  | .ok _ => true
  | .error _ => false

/-! ## Theorems -/

/-- Claim C1 (code_bug evidence): on the single file `a.ts` containing
    `function foo(){}` — a function with no other reference anywhere — both
    strategies return `unusedFunctions = []`, while the claim (spec Scenario A)
    requires `foo` to appear there.  Structurally, the declaration's own
    identifier is visited by the generic traversal and recorded as a usage;
    lexically, the defining text itself satisfies the local call-pattern test
    in `isUsed`, so the definition is never reported. -/
theorem c1_unused_function_not_reported :
    runASTMode fsFoo parseFoo statSixteen ["a.ts"] =
      .ok ⟨[], [], [], [⟨"a.ts", 16⟩], [], [], 1⟩ ∧
    runRegexMode fsFoo oraclesFoo statSixteen ["a.ts"] =
      .ok ⟨[], [], [], [⟨"a.ts", 16⟩], [], [], 1⟩ :=
  ⟨rfl, rfl⟩

/-- Claim C3 (counterexample): with `a.ts` readable and `b.ts` unreadable, the
    AST-mode run returns an error — the unreadable file is not skipped and no
    `AnalysisResult` is produced, contradicting the claim that a read failure
    is non-fatal for the run. -/
theorem c3_counterexample :
    runASTMode fsOnlyA parseNever statSixteen ["a.ts", "b.ts"] = .error () := rfl

/-- Claim C4 (code_bug evidence): `b.ts` textually contains the
    import-from-string `from './a'` for the candidate spelling `./a` of
    `a.ts`, yet `a.ts` is still reported in `unusedFiles`: the detector's
    matching regex is built inside a template literal where `\s` cooks to the
    letter `s`, so it never matches a real `from '...'` clause. -/
theorem c4_imported_file_reported_unused :
    containsSubstr "import { x } from './a';\nexport const y = x;\n" "from './a'" = true ∧
    findUnusedFilesE fsImportPair statThirteen ["a.ts", "b.ts"] = .ok [⟨"a.ts", 13⟩] :=
  ⟨rfl, rfl⟩

/-- Claim C7 (counterexample): `app/data.ts` lies directly inside an `app`
    routing-root directory — `app` is its directory — yet the entry-point
    predicate is false, because the source requires the segment to be enclosed
    by path separators on both sides (`/app/`). -/
theorem c7_counterexample :
    dirname "app/data.ts" = "app" ∧ isNextJsEntryPoint "app/data.ts" = false :=
  ⟨rfl, rfl⟩

/-- Claim C7 (amended): the entry-point predicate is true for the six listed
    basenames, and for every path in which an `app` or `pages` segment is
    enclosed by separators on both sides. -/
theorem c7_entry_point_amended (p : String) :
    ((basename p = "page.tsx" ∨ basename p = "layout.ts" ∨ basename p = "route.ts" ∨
      basename p = "middleware.ts" ∨ basename p = "_app.tsx" ∨ basename p = "_document.tsx") →
      isNextJsEntryPoint p = true) ∧
    ((containsSubstr p "/app/" = true ∨ containsSubstr p "/pages/" = true) →
      isNextJsEntryPoint p = true) := by
  constructor
  · intro h
    have hc : basename p ∈ appRouterPatterns ∨ basename p ∈ pageRouterPatterns := by
      rcases h with h | h | h | h | h | h <;> rw [h] <;> decide
    simp [isNextJsEntryPoint]
    exact Or.inl hc
  · intro h
    simp [isNextJsEntryPoint]
    exact Or.inr h

/-- Witness for the amended C7 at concrete inputs. -/
theorem c7_witness :
    isNextJsEntryPoint "page.tsx" = true ∧ isNextJsEntryPoint "x/app/y.ts" = true :=
  ⟨(c7_entry_point_amended "page.tsx").1 (Or.inl rfl),
   (c7_entry_point_amended "x/app/y.ts").2 (Or.inl rfl)⟩

/-- Claim C8: whenever the name does not start with an uppercase letter the
    component heuristic is false, whatever the content and path are. -/
theorem c8_lowercase_never_component (name content filePath : String)
    (h : startsUpperTest name = false) :
    isLikelyComponent name content filePath = false := by
  simp [isLikelyComponent, h]

/-- Witness for C8 at a concrete input. -/
theorem c8_witness :
    startsUpperTest "foo" = false ∧
    isLikelyComponent "foo" "return (<div/>)" "src/components/x.tsx" = false :=
  ⟨rfl, c8_lowercase_never_component "foo" "return (<div/>)" "src/components/x.tsx" rfl⟩

/-- Claim C10: the structural strategy classifies a function-valued definition
    by calling the component heuristic with the empty string as the file
    content (see `variableDeclaratorsFold` and the `FunctionDeclaration` case
    of `travNode`); on empty content the heuristic degenerates to «name starts
    uppercase AND the path is an entry point» — no content signal can fire. -/
theorem c10_structural_classification (name filePath : String) :
    isLikelyComponent name "" filePath = (startsUpperTest name && isNextJsEntryPoint filePath) := by
  have h1 : containsSubstr "" "\"use client\"" = false := rfl
  have h2 : hasJSXReturnTest "" = false := rfl
  have h3 : reactHooksRegexTest "" = false := rfl
  have h4 : containsSubstr "" "className" = false := rfl
  have h5 : containsSubstr "" "onClick" = false := rfl
  have h6 : containsSubstr "" "onSubmit" = false := rfl
  have h7 : containsSubstr "" "onChange" = false := rfl
  have h8 : containsSubstr "" "style" = false := rfl
  have h9 : containsSubstr "" "<Fragment>" = false := rfl
  have h10 : fragmentAltTest "" = false := rfl
  have h11 : containsSubstr "" "memo(" = false := rfl
  have h12 : containsSubstr "" "forwardRef(" = false := rfl
  cases hu : startsUpperTest name with
  | false => simp [isLikelyComponent, hu]
  | true =>
    cases he : isNextJsEntryPoint filePath with
    | false =>
      simp [isLikelyComponent, hu, he, h1, h2, h3, h4, h5, h6, h7, h8, h9, h10, h11, h12]
    | true =>
      simp [isLikelyComponent, hu, he, h1, h2]

theorem mapGet_mapPush_self {α : Type} (m : List (String × List α)) (k : String) (v : α) :
    mapGet (mapPush m k v) k = some (((mapGet m k).getD []) ++ [v]) := by
  induction m with
  | nil => simp [mapPush, mapGet]
  | cons kv rest ih =>
    obtain ⟨k', vs⟩ := kv
    by_cases hk : k' = k
    · subst hk
      simp [mapPush, mapGet]
    · simp [mapPush, mapGet, hk, ih]

/-- Claim C5: for any usage index, appending a usage occurrence of the
    definition's name recorded in a file other than the defining file can
    never flip the cross-reference verdict from used to not-used — under the
    regex-mode `isUsed` rules and under the AST-mode any-usage check alike
    (after such an insertion both verdicts are in fact true). -/
theorem c5_isUsed_monotone (usageMap : List (String × List UsageEntry))
    (exportsSet : List String) (filePath content name : String) (u : UsageEntry)
    (h : u.file ≠ filePath) :
    (isUsedRegex usageMap exportsSet filePath content name = true →
      isUsedRegex (mapPush usageMap name u) exportsSet filePath content name = true) ∧
    (astModeUsed usageMap name = true →
      astModeUsed (mapPush usageMap name u) name = true) := by
  constructor
  · intro _
    unfold isUsedRegex
    rw [mapGet_mapPush_self]
    have hu : (u.file != filePath) = true := by simp [h]
    simp [hu]
  · intro _
    unfold astModeUsed
    rw [mapGet_mapPush_self]
    simp

/-- Witness for C5 at a concrete usage index and occurrence. -/
theorem c5_witness :
    isUsedRegex (mapPush [("useFoo", [⟨"a.ts", 1⟩])] "useFoo" ⟨"b.ts", 2⟩) []
      "a.ts" "" "useFoo" = true ∧
    astModeUsed (mapPush [("useFoo", [⟨"a.ts", 1⟩])] "useFoo" ⟨"b.ts", 2⟩) "useFoo" = true :=
  ⟨(c5_isUsed_monotone [("useFoo", [⟨"a.ts", 1⟩])] [] "a.ts" "" "useFoo" ⟨"b.ts", 2⟩
      (by decide)).1 rfl,
   (c5_isUsed_monotone [("useFoo", [⟨"a.ts", 1⟩])] [] "a.ts" "" "useFoo" ⟨"b.ts", 2⟩
      (by decide)).2 rfl⟩

theorem analyzeAllFilesFrom_err (fsRead : String → Option String)
    (parseOracle : String → String → Except String Node) :
    ∀ (files : List String) (acc : ASTAll), (∃ f ∈ files, fsRead f = none) →
      analyzeAllFilesFrom fsRead parseOracle acc files = .error () := by
  intro files
  induction files with
  | nil =>
    intro acc h
    rcases h with ⟨f, hf, _⟩
    cases hf
  | cons g rest ih =>
    intro acc h
    rw [analyzeAllFilesFrom]
    cases hg : fsRead g with
    | none => simp [analyzeFileAST, hg]
    | some c =>
      rcases h with ⟨f, hf, hnone⟩
      rcases List.mem_cons.mp hf with rfl | hmem
      · rw [hg] at hnone
        cases hnone
      · cases hp : parseOracle (extname g) c with
        | error e => simp [analyzeFileAST, hg, hp, ih _ ⟨f, hmem, hnone⟩]
        | ok ast => simp [analyzeFileAST, hg, hp, ih _ ⟨f, hmem, hnone⟩]

theorem buildUsageMapFrom_err (fsRead : String → Option String) (oracles : RegexOracles) :
    ∀ (files : List String) (m : List (String × List UsageEntry)),
      (∃ f ∈ files, fsRead f = none) →
      buildUsageMapFrom fsRead oracles m files = .error () := by
  intro files
  induction files with
  | nil =>
    intro m h
    rcases h with ⟨f, hf, _⟩
    cases hf
  | cons g rest ih =>
    intro m h
    rw [buildUsageMapFrom]
    cases hg : fsRead g with
    | none => simp
    | some c =>
      rcases h with ⟨f, hf, hnone⟩
      rcases List.mem_cons.mp hf with rfl | hmem
      · rw [hg] at hnone
        cases hnone
      · simp [ih _ ⟨f, hmem, hnone⟩]

/-- Claim C3 (amended): in both strategies, a failure to read any input
    file's content aborts the run — the uncaught `readFileSync` exception
    propagates and no `AnalysisResult` is produced (only the `statSync`
    failure during unused-file reporting is swallowed). -/
theorem c3_read_failure_aborts (fsRead : String → Option String)
    (parseOracle : String → String → Except String Node) (oracles : RegexOracles)
    (stat : String → Option Nat) (files : List String)
    (h : ∃ f ∈ files, fsRead f = none) :
    runASTMode fsRead parseOracle stat files = .error () ∧
    runRegexMode fsRead oracles stat files = .error () := by
  constructor
  · unfold runASTMode analyzeAllFilesAST
    rw [analyzeAllFilesFrom_err fsRead parseOracle files emptyASTAll h]
  · unfold runRegexMode buildUsageMapR
    rw [buildUsageMapFrom_err fsRead oracles files [] h]

/-- Witness for the amended C3 at a concrete file set. -/
theorem c3_witness :
    runASTMode fsOnlyA parseNever statSixteen ["a.ts", "b.ts"] = .error () ∧
    runRegexMode fsOnlyA oraclesEmpty statSixteen ["a.ts", "b.ts"] = .error () :=
  c3_read_failure_aborts fsOnlyA parseNever oraclesEmpty statSixteen ["a.ts", "b.ts"]
    ⟨"b.ts", by decide, rfl⟩

theorem analyzeAllFilesFrom_ok (fsRead : String → Option String)
    (parseOracle : String → String → Except String Node) :
    ∀ (files : List String) (acc : ASTAll), (∀ f ∈ files, (fsRead f).isSome = true) →
      isOkE (analyzeAllFilesFrom fsRead parseOracle acc files) = true := by
  intro files
  induction files with
  | nil =>
    intro acc _
    rfl
  | cons g rest ih =>
    intro acc h
    rw [analyzeAllFilesFrom]
    cases hg : fsRead g with
    | none =>
      have := h g (List.mem_cons_self g rest)
      rw [hg] at this
      cases this
    | some c =>
      have hrest : ∀ f ∈ rest, (fsRead f).isSome = true :=
        fun f hf => h f (List.mem_cons_of_mem g hf)
      cases hp : parseOracle (extname g) c with
      | error e => simp [analyzeFileAST, hg, hp, ih _ hrest]
      | ok ast => simp [analyzeFileAST, hg, hp, ih _ hrest]

/-- Claim C6: in the structural strategy a parse failure is caught per file —
    the file contributes empty definitions, usages, exports and imports plus a
    logged warning — and, as long as every file's content is readable, the run
    over the file set always completes with a result, never aborted by a parse
    failure. -/
theorem c6_parse_failure_recovered :
    (∀ (fsRead : String → Option String) (parseOracle : String → String → Except String Node)
       (f c e : String), fsRead f = some c → parseOracle (extname f) c = .error e →
       analyzeFileAST fsRead parseOracle f =
         .ok (emptyASTResult, ["Failed to parse " ++ f ++ ": " ++ e])) ∧
    (∀ (fsRead : String → Option String) (parseOracle : String → String → Except String Node)
       (files : List String), (∀ f ∈ files, (fsRead f).isSome = true) →
       isOkE (analyzeAllFilesAST fsRead parseOracle files) = true) := by
  constructor
  · intro fsRead parseOracle f c e hc hp
    simp [analyzeFileAST, hc, hp]
  · intro fsRead parseOracle files h
    exact analyzeAllFilesFrom_ok fsRead parseOracle files emptyASTAll h

/-- Witness for C6 at a concrete file set and parse oracle. -/
theorem c6_witness :
    analyzeFileAST fsOnlyA parseNever "a.ts" =
      .ok (emptyASTResult, ["Failed to parse a.ts: bad"]) ∧
    isOkE (analyzeAllFilesAST fsOnlyA parseNever ["a.ts"]) = true :=
  ⟨c6_parse_failure_recovered.1 fsOnlyA parseNever "a.ts" "x" "bad" rfl rfl,
   c6_parse_failure_recovered.2 fsOnlyA parseNever ["a.ts"]
     (by intro f hf; rcases List.mem_singleton.mp hf with rfl; rfl)⟩

theorem all_addToSet (p : String → Bool) (s : List String) (x : String)
    (hs : s.all p = true) (hx : p x = true) : (addToSet s x).all p = true := by
  unfold addToSet
  split
  · exact hs
  · simp [List.all_append, hs, hx]

theorem resOk_pushUsage (acc : ASTResult) (name : String) (line : Nat) (ctx : String)
    (h : resOk acc = true) : resOk (pushUsage acc name line ctx) = true := by
  unfold pushUsage
  split
  · exact h
  · next hguard =>
    unfold resOk at h ⊢
    rw [Bool.and_eq_true] at h
    simp [List.all_append, h.1, h.2, hguard]

theorem resOk_setExports (acc : ASTResult) (es : List String) (h : resOk acc = true) :
    resOk { acc with exports := es } = true := h

theorem resOk_pushDef (acc : ASTResult) (name dtype : String) (line : Nat)
    (h : resOk acc = true) (hn : isBuiltinOrCommon name = false) :
    resOk { acc with definitions := acc.definitions ++ [⟨name, dtype, line⟩] } = true := by
  unfold resOk at h ⊢
  rw [Bool.and_eq_true] at h
  simp [List.all_append, h.1, h.2, hn]

theorem resOk_importSpecifiersFold (line : Nat) (ns : NodeList) :
    ∀ (acc : ASTResult), resOk acc = true →
      resOk (importSpecifiersFold line acc ns) = true := by
  cases ns with
  | nil =>
    intro acc h
    rw [importSpecifiersFold]
    exact h
  | cons spec rest =>
    intro acc h
    rw [importSpecifiersFold]
    apply resOk_importSpecifiersFold line rest
    dsimp only
    unfold resOk at h ⊢
    rw [Bool.and_eq_true] at h
    repeat' split
    all_goals simp_all [List.all_append]

theorem resOk_exportSpecifiersFold (ns : NodeList) :
    ∀ (acc : ASTResult), resOk acc = true →
      resOk (exportSpecifiersFold acc ns) = true := by
  cases ns with
  | nil =>
    intro acc h
    rw [exportSpecifiersFold]
    exact h
  | cons spec rest =>
    intro acc h
    rw [exportSpecifiersFold]
    apply resOk_exportSpecifiersFold rest
    dsimp only
    unfold resOk at h ⊢
    repeat' split
    all_goals simp_all

theorem resOk_variableDeclaratorsFold (fp : String) (line : Nat) (exported : Bool)
    (ns : NodeList) :
    ∀ (acc : ASTResult), resOk acc = true →
      resOk (variableDeclaratorsFold fp line exported acc ns) = true := by
  cases ns with
  | nil =>
    intro acc h
    rw [variableDeclaratorsFold]
    exact h
  | cons decl rest =>
    intro acc h
    rw [variableDeclaratorsFold]
    apply resOk_variableDeclaratorsFold fp line exported rest
    dsimp only
    unfold resOk at h ⊢
    rw [Bool.and_eq_true] at h
    repeat' split
    all_goals simp_all [List.all_append]

/-- The defining equation of `travNode` on a constructor, in closed form
    (used to unfold the traversal inside proofs). -/
theorem travNode_mk (filePath : String) (acc : ASTResult) (ty : String)
    (nm : Option String) (loc : Option Nat) (props : PropList) :
    travNode filePath acc (.mk ty nm loc props) =
      let line := loc.getD 1
      let acc1 :=
        if ty = "Program" then travKey filePath acc "body" props
        else if ty = "ImportDeclaration" then
          importSpecifiersFold line acc ((props.findMany "specifiers").getD .nil)
        else if ty = "ExportNamedDeclaration" then
          if props.hasProp "declaration" then travKey filePath acc "declaration" props
          else if props.hasProp "specifiers" then
            exportSpecifiersFold acc ((props.findMany "specifiers").getD .nil)
          else acc
        else if ty = "ExportDefaultDeclaration" then
          if props.hasProp "declaration" then travKey filePath acc "declaration" props
          else acc
        else if ty = "VariableDeclaration" then
          variableDeclaratorsFold filePath line (isExported (.mk ty nm loc props)) acc
            ((props.findMany "declarations").getD .nil)
        else if ty = "FunctionDeclaration" then
          match (props.findSingle "id").bind Node.nameAttr with
          | some name =>
            if name = "" || isBuiltinOrCommon name then acc
            else
              let acc2 :=
                if isLikelyComponent name "" filePath then
                  { acc with definitions := acc.definitions ++ [⟨name, "component", line⟩] }
                else
                  { acc with definitions := acc.definitions ++ [⟨name, "function", line⟩] }
              if isExported (.mk ty nm loc props) then
                { acc2 with exports := addToSet acc2.exports name }
              else acc2
          | none => acc
        else if ty = "FunctionExpression" || ty = "ArrowFunctionExpression" then acc
        else if ty = "CallExpression" then
          match props.findSingle "callee" with
          | some callee =>
            if callee.ty = "Identifier" then
              match callee.nameAttr with
              | some name => pushUsage acc name line "call"
              | none => acc
            else acc
          | none => acc
        else if ty = "JSXElement" then
          match props.findSingle "openingElement" with
          | some oe =>
            match oe.props.findSingle "name" with
            | some nmNode =>
              if nmNode.ty = "JSXIdentifier" then
                match nmNode.nameAttr with
                | some name => pushUsage acc name line "jsx"
                | none => acc
              else acc
            | none => acc
          | none => acc
        else if ty = "JSXIdentifier" then
          match nm with
          | some name => pushUsage acc name line "jsx"
          | none => acc
        else if ty = "Identifier" then
          match nm with
          | some name => pushUsage acc name line "reference"
          | none => acc
        else if ty = "MemberExpression" then
          match props.findSingle "object" with
          | some obj =>
            if obj.ty = "Identifier" then
              match obj.nameAttr with
              | some name => pushUsage acc name line "property"
              | none => acc
            else acc
          | none => acc
        else if ty = "ObjectProperty" then
          match props.findSingle "value" with
          | some v =>
            if v.ty = "Identifier" then
              match v.nameAttr with
              | some name => pushUsage acc name line "property"
              | none => acc
            else acc
          | none => acc
        else if ty = "SpreadElement" then
          match props.findSingle "argument" with
          | some arg =>
            if arg.ty = "Identifier" then
              match arg.nameAttr with
              | some name => pushUsage acc name line "spread"
              | none => acc
            else acc
          | none => acc
        else if ty = "TypeScript" then
          if props.hasProp "typeAnnotation" then travKey filePath acc "typeAnnotation" props
          else acc
        else acc
      genericProps filePath acc1 props := rfl

/-- Defining equations of the traversal helpers, in closed form. -/
theorem travKey_nil (fp : String) (acc : ASTResult) (key : String) :
    travKey fp acc key .nil = acc := rfl

theorem travKey_consSingle (fp : String) (acc : ASTResult) (key k : String)
    (n : Node) (rest : PropList) :
    travKey fp acc key (.consSingle k n rest) =
      if k = key then travNode fp acc n else travKey fp acc key rest := rfl

theorem travKey_consMany (fp : String) (acc : ASTResult) (key k : String)
    (ns : NodeList) (rest : PropList) :
    travKey fp acc key (.consMany k ns rest) =
      if k = key then travList fp acc ns else travKey fp acc key rest := rfl

theorem genericProps_nil (fp : String) (acc : ASTResult) :
    genericProps fp acc .nil = acc := rfl

theorem genericProps_consSingle (fp : String) (acc : ASTResult) (k : String)
    (n : Node) (rest : PropList) :
    genericProps fp acc (.consSingle k n rest) =
      genericProps fp (if k != "type" && k != "loc" then travNode fp acc n else acc) rest := rfl

theorem genericProps_consMany (fp : String) (acc : ASTResult) (k : String)
    (ns : NodeList) (rest : PropList) :
    genericProps fp acc (.consMany k ns rest) =
      genericProps fp (if k != "type" && k != "loc" then travList fp acc ns else acc) rest := rfl

theorem travList_nil (fp : String) (acc : ASTResult) :
    travList fp acc .nil = acc := rfl

theorem travList_cons (fp : String) (acc : ASTResult) (n : Node) (rest : NodeList) :
    travList fp acc (.cons n rest) = travList fp (travNode fp acc n) rest := rfl

theorem resOk_ite (c : Prop) [Decidable c] (a b : ASTResult)
    (ha : c → resOk a = true) (hb : ¬c → resOk b = true) :
    resOk (if c then a else b) = true := by
  split
  · exact ha ‹_›
  · exact hb ‹_›

theorem resOk_ite' (c : Prop) [Decidable c] {a b : ASTResult}
    (ha : resOk a = true) (hb : resOk b = true) :
    resOk (if c then a else b) = true := by
  split
  · exact ha
  · exact hb

mutual
theorem resOk_travNode (fp : String) (acc : ASTResult) (n : Node)
    (h : resOk acc = true) : resOk (travNode fp acc n) = true := by
  cases n with
  | mk ty nm loc props =>
    rw [travNode_mk]
    dsimp only
    apply resOk_genericProps
    refine resOk_ite' _ (resOk_travKey _ _ _ _ h) ?_
    refine resOk_ite' _ (resOk_importSpecifiersFold _ _ _ h) ?_
    refine resOk_ite' _ (resOk_ite' _ (resOk_travKey _ _ _ _ h)
      (resOk_ite' _ (resOk_exportSpecifiersFold _ _ h) h)) ?_
    refine resOk_ite' _ (resOk_ite' _ (resOk_travKey _ _ _ _ h) h) ?_
    refine resOk_ite' _ (resOk_variableDeclaratorsFold _ _ _ _ _ h) ?_
    refine resOk_ite' _ ?_ ?_
    · cases hname : (props.findSingle "id").bind Node.nameAttr with
      | none => exact h
      | some name =>
        dsimp only
        refine resOk_ite _ _ _ (fun _ => h) (fun hneg => ?_)
        have hb : isBuiltinOrCommon name = false := by
          simp at hneg
          exact hneg.2
        exact resOk_ite' _
          (resOk_setExports _ _ (resOk_ite' _ (resOk_pushDef _ _ _ _ h hb)
            (resOk_pushDef _ _ _ _ h hb)))
          (resOk_ite' _ (resOk_pushDef _ _ _ _ h hb) (resOk_pushDef _ _ _ _ h hb))
    refine resOk_ite' _ h ?_
    refine resOk_ite' _ ?_ ?_
    · cases hc : props.findSingle "callee" with
      | none => exact h
      | some callee =>
        dsimp only
        refine resOk_ite' _ ?_ h
        cases hn : callee.nameAttr with
        | none => exact h
        | some name => exact resOk_pushUsage _ _ _ _ h
    refine resOk_ite' _ ?_ ?_
    · cases hoe : props.findSingle "openingElement" with
      | none => exact h
      | some oe =>
        dsimp only
        cases hnn : oe.props.findSingle "name" with
        | none => exact h
        | some nmNode =>
          dsimp only
          refine resOk_ite' _ ?_ h
          cases hn : nmNode.nameAttr with
          | none => exact h
          | some name => exact resOk_pushUsage _ _ _ _ h
    refine resOk_ite' _ ?_ ?_
    · cases nm with
      | none => exact h
      | some name => exact resOk_pushUsage _ _ _ _ h
    refine resOk_ite' _ ?_ ?_
    · cases nm with
      | none => exact h
      | some name => exact resOk_pushUsage _ _ _ _ h
    refine resOk_ite' _ ?_ ?_
    · cases hc : props.findSingle "object" with
      | none => exact h
      | some obj =>
        dsimp only
        refine resOk_ite' _ ?_ h
        cases hn : obj.nameAttr with
        | none => exact h
        | some name => exact resOk_pushUsage _ _ _ _ h
    refine resOk_ite' _ ?_ ?_
    · cases hc : props.findSingle "value" with
      | none => exact h
      | some v =>
        dsimp only
        refine resOk_ite' _ ?_ h
        cases hn : v.nameAttr with
        | none => exact h
        | some name => exact resOk_pushUsage _ _ _ _ h
    refine resOk_ite' _ ?_ ?_
    · cases hc : props.findSingle "argument" with
      | none => exact h
      | some arg =>
        dsimp only
        refine resOk_ite' _ ?_ h
        cases hn : arg.nameAttr with
        | none => exact h
        | some name => exact resOk_pushUsage _ _ _ _ h
    exact resOk_ite' _ (resOk_ite' _ (resOk_travKey _ _ _ _ h) h) h

theorem resOk_travKey (fp : String) (acc : ASTResult) (key : String) (ps : PropList)
    (h : resOk acc = true) : resOk (travKey fp acc key ps) = true := by
  cases ps with
  | nil =>
    rw [travKey_nil]
    exact h
  | consSingle k n rest =>
    rw [travKey_consSingle]
    split
    · exact resOk_travNode _ _ _ h
    · exact resOk_travKey _ _ _ _ h
  | consMany k ns rest =>
    rw [travKey_consMany]
    split
    · exact resOk_travList _ _ _ h
    · exact resOk_travKey _ _ _ _ h

theorem resOk_genericProps (fp : String) (acc : ASTResult) (ps : PropList)
    (h : resOk acc = true) : resOk (genericProps fp acc ps) = true := by
  cases ps with
  | nil =>
    rw [genericProps_nil]
    exact h
  | consSingle k n rest =>
    rw [genericProps_consSingle]
    apply resOk_genericProps
    split
    · exact resOk_travNode _ _ _ h
    · exact h
  | consMany k ns rest =>
    rw [genericProps_consMany]
    apply resOk_genericProps
    split
    · exact resOk_travList _ _ _ h
    · exact h

theorem resOk_travList (fp : String) (acc : ASTResult) (ns : NodeList)
    (h : resOk acc = true) : resOk (travList fp acc ns) = true := by
  cases ns with
  | nil =>
    rw [travList_nil]
    exact h
  | cons n rest =>
    rw [travList_cons]
    exact resOk_travList _ _ _ (resOk_travNode _ _ _ h)
end

theorem mapOk_mapPush (m : List (String × List UsageEntry)) (k : String) (v : UsageEntry)
    (hm : mapOk m = true) (hk : isBuiltinOrCommon k = false) :
    mapOk (mapPush m k v) = true := by
  induction m with
  | nil => simp [mapPush, mapOk, hk]
  | cons kv rest ih =>
    unfold mapOk at hm ih ⊢
    rw [mapPush]
    simp only [List.all_cons, Bool.and_eq_true] at hm
    split
    · simp [List.all_cons, hm.1, hm.2]
    · simp [List.all_cons, hm.1, ih hm.2]

theorem mapOk_buildUsageEntries (file content : String) :
    ∀ (ms : List RMatch) (m : List (String × List UsageEntry)), mapOk m = true →
      mapOk (buildUsageEntries file content m ms) = true := by
  intro ms
  induction ms with
  | nil =>
    intro m h
    rw [buildUsageEntries]
    exact h
  | cons r rest ih =>
    intro m h
    rw [buildUsageEntries]
    apply ih
    split
    · exact h
    · split
      · exact h
      · next hguard => exact mapOk_mapPush _ _ _ h (by simpa using hguard)

theorem exceptMapOk_buildUsageMapFrom (fsRead : String → Option String)
    (oracles : RegexOracles) :
    ∀ (files : List String) (m : List (String × List UsageEntry)), mapOk m = true →
      exceptMapOk (buildUsageMapFrom fsRead oracles m files) = true := by
  intro files
  induction files with
  | nil =>
    intro m h
    exact h
  | cons f rest ih =>
    intro m h
    rw [buildUsageMapFrom]
    cases hf : fsRead f with
    | none => rfl
    | some content => exact ih _ (mapOk_buildUsageEntries _ _ _ _ h)

theorem defsOk_componentLoop (fp content : String) :
    ∀ (ms : List RMatch) (defs : FileDefinitions), defsOk defs = true →
      defsOk (componentLoop fp content defs ms) = true := by
  intro ms
  induction ms with
  | nil =>
    intro defs h
    rw [componentLoop]
    exact h
  | cons r rest ih =>
    intro defs h
    rw [componentLoop]
    apply ih
    unfold defsOk at h ⊢
    repeat' split
    all_goals simp_all [all_addToSet]

theorem defsOk_functionLoop (content : String) :
    ∀ (ms : List RMatch) (defs : FileDefinitions), defsOk defs = true →
      defsOk (functionLoop content defs ms) = true := by
  intro ms
  induction ms with
  | nil =>
    intro defs h
    rw [functionLoop]
    exact h
  | cons r rest ih =>
    intro defs h
    rw [functionLoop]
    apply ih
    unfold defsOk at h ⊢
    repeat' split
    all_goals simp_all [all_addToSet]

theorem defsOk_variableLoop (content cwc : String) :
    ∀ (ms : List RMatch) (defs : FileDefinitions), defsOk defs = true →
      defsOk (variableLoop content cwc defs ms) = true := by
  intro ms
  induction ms with
  | nil =>
    intro defs h
    rw [variableLoop]
    exact h
  | cons r rest ih =>
    intro defs h
    rw [variableLoop]
    apply ih
    unfold defsOk at h ⊢
    repeat' split
    all_goals simp_all [all_addToSet]

theorem defsOk_addImportNames :
    ∀ (names : List String) (defs : FileDefinitions), defsOk defs = true →
      defsOk (addImportNames defs names) = true := by
  intro names
  induction names with
  | nil =>
    intro defs h
    rw [addImportNames]
    exact h
  | cons n rest ih =>
    intro defs h
    rw [addImportNames]
    apply ih
    unfold defsOk at h ⊢
    repeat' split
    all_goals simp_all [all_addToSet]

theorem defsOk_importLoop :
    ∀ (ms : List RImportMatch) (defs : FileDefinitions), defsOk defs = true →
      defsOk (importLoop defs ms) = true := by
  intro ms
  induction ms with
  | nil =>
    intro defs h
    rw [importLoop]
    exact h
  | cons m rest ih =>
    intro defs h
    rw [importLoop]
    apply ih
    dsimp only
    split
    · exact defsOk_addImportNames _ _ h
    · unfold defsOk at h ⊢
      repeat' split
      all_goals simp_all [all_addToSet]

theorem defsOk_typeImportLoop :
    ∀ (ts : List String) (defs : FileDefinitions), defsOk defs = true →
      defsOk (typeImportLoop defs ts) = true := by
  intro ts
  induction ts with
  | nil =>
    intro defs h
    rw [typeImportLoop]
    exact h
  | cons t rest ih =>
    intro defs h
    rw [typeImportLoop]
    exact ih _ (defsOk_addImportNames _ _ h)

/-- Claim C2: a name is recorded in a Definition list or UsageOccurrence list
    only if it fails the builtin test and the common-pattern test, in both
    strategies: every definition and usage the structural traversal emits,
    every key of the lexical usage map (for any match stream the patterns may
    produce), and every name in the lexical per-file Definition sets pass the
    `isBuiltinOrCommon` filter. -/
theorem c2_filter_invariant :
    (∀ (fp : String) (ast : Node), resOk (travNode fp emptyASTResult ast) = true) ∧
    (∀ (fsRead : String → Option String) (oracles : RegexOracles) (files : List String),
      exceptMapOk (buildUsageMapR fsRead oracles files) = true) ∧
    (∀ (oracles : RegexOracles) (filePath content : String),
      defsOk (analyzeFileDefs oracles filePath content) = true) := by
  refine ⟨?_, ?_, ?_⟩
  · intro fp ast
    exact resOk_travNode fp emptyASTResult ast rfl
  · intro fsRead oracles files
    exact exceptMapOk_buildUsageMapFrom fsRead oracles files [] rfl
  · intro oracles filePath content
    unfold analyzeFileDefs
    apply defsOk_typeImportLoop
    apply defsOk_importLoop
    apply defsOk_variableLoop
    apply defsOk_functionLoop
    apply defsOk_componentLoop
    rfl

theorem usages_importSpecifiersFold (line : Nat) (ns : NodeList) :
    ∀ (acc : ASTResult), (importSpecifiersFold line acc ns).usages = acc.usages := by
  cases ns with
  | nil =>
    intro acc
    rw [importSpecifiersFold]
  | cons spec rest =>
    intro acc
    rw [importSpecifiersFold]
    rw [usages_importSpecifiersFold line rest]
    repeat' split
    all_goals rfl

theorem usages_exportSpecifiersFold (ns : NodeList) :
    ∀ (acc : ASTResult), (exportSpecifiersFold acc ns).usages = acc.usages := by
  cases ns with
  | nil =>
    intro acc
    rw [exportSpecifiersFold]
  | cons spec rest =>
    intro acc
    rw [exportSpecifiersFold]
    rw [usages_exportSpecifiersFold rest]
    repeat' split
    all_goals rfl

theorem usages_variableDeclaratorsFold (fp : String) (line : Nat) (exported : Bool)
    (ns : NodeList) :
    ∀ (acc : ASTResult), (variableDeclaratorsFold fp line exported acc ns).usages = acc.usages := by
  cases ns with
  | nil =>
    intro acc
    rw [variableDeclaratorsFold]
  | cons decl rest =>
    intro acc
    rw [variableDeclaratorsFold]
    rw [usages_variableDeclaratorsFold fp line exported rest]
    repeat' split
    all_goals rfl

theorem mem_usages_pushUsage (acc : ASTResult) (name : String) (line : Nat) (ctx : String)
    {u : ASTUsage} (h : u ∈ acc.usages) : u ∈ (pushUsage acc name line ctx).usages := by
  unfold pushUsage
  split
  · exact h
  · simp only [List.mem_append]
    exact Or.inl h

theorem mem_ite' (c : Prop) [Decidable c] {a b : ASTResult} {u : ASTUsage}
    (ha : u ∈ a.usages) (hb : u ∈ b.usages) : u ∈ (if c then a else b).usages := by
  split
  · exact ha
  · exact hb

mutual
theorem mem_travNode (fp : String) (acc : ASTResult) (n : Node) {u : ASTUsage}
    (h : u ∈ acc.usages) : u ∈ (travNode fp acc n).usages := by
  cases n with
  | mk ty nm loc props =>
    rw [travNode_mk]
    dsimp only
    apply mem_genericProps
    refine mem_ite' _ (mem_travKey _ _ _ _ h) ?_
    refine mem_ite' _ ?_ ?_
    · rw [usages_importSpecifiersFold]
      exact h
    refine mem_ite' _ ?_ ?_
    · refine mem_ite' _ (mem_travKey _ _ _ _ h) (mem_ite' _ ?_ h)
      rw [usages_exportSpecifiersFold]
      exact h
    refine mem_ite' _ (mem_ite' _ (mem_travKey _ _ _ _ h) h) ?_
    refine mem_ite' _ ?_ ?_
    · rw [usages_variableDeclaratorsFold]
      exact h
    refine mem_ite' _ ?_ ?_
    · cases hname : (props.findSingle "id").bind Node.nameAttr with
      | none => exact h
      | some name =>
        dsimp only
        exact mem_ite' _ h (mem_ite' _ (mem_ite' _ h h) (mem_ite' _ h h))
    refine mem_ite' _ h ?_
    refine mem_ite' _ ?_ ?_
    · cases hc : props.findSingle "callee" with
      | none => exact h
      | some callee =>
        dsimp only
        refine mem_ite' _ ?_ h
        cases hn : callee.nameAttr with
        | none => exact h
        | some name => exact mem_usages_pushUsage _ _ _ _ h
    refine mem_ite' _ ?_ ?_
    · cases hoe : props.findSingle "openingElement" with
      | none => exact h
      | some oe =>
        dsimp only
        cases hnn : oe.props.findSingle "name" with
        | none => exact h
        | some nmNode =>
          dsimp only
          refine mem_ite' _ ?_ h
          cases hn : nmNode.nameAttr with
          | none => exact h
          | some name => exact mem_usages_pushUsage _ _ _ _ h
    refine mem_ite' _ ?_ ?_
    · cases nm with
      | none => exact h
      | some name => exact mem_usages_pushUsage _ _ _ _ h
    refine mem_ite' _ ?_ ?_
    · cases nm with
      | none => exact h
      | some name => exact mem_usages_pushUsage _ _ _ _ h
    refine mem_ite' _ ?_ ?_
    · cases hc : props.findSingle "object" with
      | none => exact h
      | some obj =>
        dsimp only
        refine mem_ite' _ ?_ h
        cases hn : obj.nameAttr with
        | none => exact h
        | some name => exact mem_usages_pushUsage _ _ _ _ h
    refine mem_ite' _ ?_ ?_
    · cases hc : props.findSingle "value" with
      | none => exact h
      | some v =>
        dsimp only
        refine mem_ite' _ ?_ h
        cases hn : v.nameAttr with
        | none => exact h
        | some name => exact mem_usages_pushUsage _ _ _ _ h
    refine mem_ite' _ ?_ ?_
    · cases hc : props.findSingle "argument" with
      | none => exact h
      | some arg =>
        dsimp only
        refine mem_ite' _ ?_ h
        cases hn : arg.nameAttr with
        | none => exact h
        | some name => exact mem_usages_pushUsage _ _ _ _ h
    exact mem_ite' _ (mem_ite' _ (mem_travKey _ _ _ _ h) h) h

theorem mem_travKey (fp : String) (acc : ASTResult) (key : String) (ps : PropList)
    {u : ASTUsage} (h : u ∈ acc.usages) : u ∈ (travKey fp acc key ps).usages := by
  cases ps with
  | nil =>
    rw [travKey_nil]
    exact h
  | consSingle k n rest =>
    rw [travKey_consSingle]
    split
    · exact mem_travNode _ _ _ h
    · exact mem_travKey _ _ _ _ h
  | consMany k ns rest =>
    rw [travKey_consMany]
    split
    · exact mem_travList _ _ _ h
    · exact mem_travKey _ _ _ _ h

theorem mem_genericProps (fp : String) (acc : ASTResult) (ps : PropList)
    {u : ASTUsage} (h : u ∈ acc.usages) : u ∈ (genericProps fp acc ps).usages := by
  cases ps with
  | nil =>
    rw [genericProps_nil]
    exact h
  | consSingle k n rest =>
    rw [genericProps_consSingle]
    apply mem_genericProps
    split
    · exact mem_travNode _ _ _ h
    · exact h
  | consMany k ns rest =>
    rw [genericProps_consMany]
    apply mem_genericProps
    split
    · exact mem_travList _ _ _ h
    · exact h

theorem mem_travList (fp : String) (acc : ASTResult) (ns : NodeList)
    {u : ASTUsage} (h : u ∈ acc.usages) : u ∈ (travList fp acc ns).usages := by
  cases ns with
  | nil =>
    rw [travList_nil]
    exact h
  | cons n rest =>
    rw [travList_cons]
    exact mem_travList _ _ _ (mem_travNode _ _ _ h)
end

/-- The generic traversal of an `Identifier` node records the reference usage
    whenever the name passes the filter. -/
theorem identifier_usage (fp name : String) (loc : Option Nat) (iprops : PropList)
    (hf : isBuiltinOrCommon name = false) :
    ∀ (acc : ASTResult),
      (⟨name, loc.getD 1, "reference"⟩ : ASTUsage) ∈
        (travNode fp acc (.mk "Identifier" (some name) loc iprops)).usages := by
  intro acc
  have hstep : travNode fp acc (.mk "Identifier" (some name) loc iprops) =
      genericProps fp (pushUsage acc name (loc.getD 1) "reference") iprops := rfl
  rw [hstep]
  apply mem_genericProps
  simp [pushUsage, hf]

theorem mem_target_travList (fp : String) {u : ASTUsage} {c : Node} {ns : NodeList}
    (hin : InNodeList c ns) (hc : ∀ acc2, u ∈ (travNode fp acc2 c).usages) :
    ∀ (acc : ASTResult), u ∈ (travList fp acc ns).usages := by
  cases hin with
  | here n rest =>
    intro acc
    rw [travList_cons]
    exact mem_travList _ _ _ (hc acc)
  | there m n rest hmem =>
    intro acc
    rw [travList_cons]
    exact mem_target_travList fp hmem hc _

theorem mem_target_genericProps (fp : String) {u : ASTUsage} {c : Node} {ps : PropList}
    (hin : InPropList c ps) (hc : ∀ acc2, u ∈ (travNode fp acc2 c).usages) :
    ∀ (acc : ASTResult), u ∈ (genericProps fp acc ps).usages := by
  cases hin with
  | hereSingle k n rest hk1 hk2 =>
    intro acc
    rw [genericProps_consSingle]
    apply mem_genericProps
    have hcond : (k != "type" && k != "loc") = true := by
      simp [hk1, hk2]
    rw [if_pos hcond]
    exact hc acc
  | hereMany k n ns rest hk1 hk2 hmem =>
    intro acc
    rw [genericProps_consMany]
    apply mem_genericProps
    have hcond : (k != "type" && k != "loc") = true := by
      simp [hk1, hk2]
    rw [if_pos hcond]
    exact mem_target_travList fp hmem hc acc
  | thereSingle k m n rest hmem =>
    intro acc
    rw [genericProps_consSingle]
    exact mem_target_genericProps fp hmem hc _
  | thereMany k ms n rest hmem =>
    intro acc
    rw [genericProps_consMany]
    exact mem_target_genericProps fp hmem hc _

/-- Every prop-descended child's traversal effects survive into the node's
    traversal, whatever the node's kind: the generic walk runs after every
    switch case. -/
theorem usageAlways_mk (fp : String) {u : ASTUsage} {c : Node} {props : PropList}
    (hin : InPropList c props) (hc : ∀ acc2, u ∈ (travNode fp acc2 c).usages)
    (ty : String) (nm : Option String) (loc : Option Nat) :
    ∀ (acc : ASTResult), u ∈ (travNode fp acc (.mk ty nm loc props)).usages := by
  intro acc
  rw [travNode_mk]
  dsimp only
  exact mem_target_genericProps fp hin hc _

theorem subNode_usage (fp : String) {u : ASTUsage} {n t : Node} (hsub : SubNode n t) :
    (∀ acc2, u ∈ (travNode fp acc2 n).usages) →
    ∀ (acc : ASTResult), u ∈ (travNode fp acc t).usages := by
  induction hsub with
  | refl m => exact fun hn => hn
  | step c m ty nm loc props hin hsubc ih =>
    exact fun hn => usageAlways_mk fp hin (ih hn) ty nm loc

theorem subNode_trans {a b c : Node} (hbc : SubNode b c) :
    SubNode a b → SubNode a c := by
  induction hbc with
  | refl m => exact fun hab => hab
  | step c' m ty nm loc props hin hsubc ih =>
    exact fun hab => SubNode.step c' a ty nm loc props hin (ih hab)

theorem findSingle_inPropList (ps : PropList) :
    ∀ (key : String) (n : Node), ps.findSingle key = some n → key ≠ "type" → key ≠ "loc" →
      InPropList n ps := by
  cases ps with
  | nil =>
    intro key n h
    simp [PropList.findSingle] at h
  | consSingle k m rest =>
    intro key n h hk1 hk2
    rw [PropList.findSingle] at h
    split at h
    · cases h
      next hk =>
        subst hk
        exact InPropList.hereSingle _ _ _ hk1 hk2
    · exact InPropList.thereSingle _ _ _ _ (findSingle_inPropList rest key n h hk1 hk2)
  | consMany k ms rest =>
    intro key n h hk1 hk2
    rw [PropList.findSingle] at h
    split at h
    · cases h
    · exact InPropList.thereMany _ _ _ _ (findSingle_inPropList rest key n h hk1 hk2)

theorem findMany_inPropList (ps : PropList) :
    ∀ (key : String) (ns : NodeList) (n : Node), ps.findMany key = some ns →
      key ≠ "type" → key ≠ "loc" → InNodeList n ns → InPropList n ps := by
  cases ps with
  | nil =>
    intro key ns n h
    simp [PropList.findMany] at h
  | consSingle k m rest =>
    intro key ns n h hk1 hk2 hmem
    rw [PropList.findMany] at h
    split at h
    · cases h
    · exact InPropList.thereSingle _ _ _ _ (findMany_inPropList rest key ns n h hk1 hk2 hmem)
  | consMany k ms rest =>
    intro key ns n h hk1 hk2 hmem
    rw [PropList.findMany] at h
    split at h
    · cases h
      next hk =>
        subst hk
        exact InPropList.hereMany _ _ _ _ hk1 hk2 hmem
    · exact InPropList.thereMany _ _ _ _ (findMany_inPropList rest key ns n h hk1 hk2 hmem)

/-- Claim C9: in the structural strategy, a `FunctionDeclaration` (resp. a
    `VariableDeclaration` declarator) anywhere in a successfully parsed file
    whose identifier passes the filters always leaves a `reference`-tagged
    `UsageOccurrence` for its own name in the file's analysis result — so
    every such definition has a recorded usage in its own defining file. -/
theorem c9_self_reference_usage :
    (∀ (fp : String) (t : Node) (nm : Option String) (loc iloc : Option Nat)
       (props iprops : PropList) (name : String),
       SubNode (.mk "FunctionDeclaration" nm loc props) t →
       props.findSingle "id" = some (.mk "Identifier" (some name) iloc iprops) →
       isBuiltinOrCommon name = false →
       (⟨name, iloc.getD 1, "reference"⟩ : ASTUsage) ∈
         (travNode fp emptyASTResult t).usages) ∧
    (∀ (fp : String) (t : Node) (nm : Option String) (loc iloc : Option Nat)
       (props iprops : PropList) (ds : NodeList) (d : Node) (name : String),
       SubNode (.mk "VariableDeclaration" nm loc props) t →
       props.findMany "declarations" = some ds →
       InNodeList d ds →
       d.props.findSingle "id" = some (.mk "Identifier" (some name) iloc iprops) →
       isBuiltinOrCommon name = false →
       (⟨name, iloc.getD 1, "reference"⟩ : ASTUsage) ∈
         (travNode fp emptyASTResult t).usages) := by
  constructor
  · intro fp t nm loc iloc props iprops name hsub hid hf
    have h1 : InPropList (.mk "Identifier" (some name) iloc iprops) props :=
      findSingle_inPropList props "id" _ hid (by decide) (by decide)
    have h2 : SubNode (.mk "Identifier" (some name) iloc iprops)
        (.mk "FunctionDeclaration" nm loc props) :=
      SubNode.step _ _ _ _ _ _ h1 (SubNode.refl _)
    exact subNode_usage fp (subNode_trans hsub h2)
      (identifier_usage fp name iloc iprops hf) emptyASTResult
  · intro fp t nm loc iloc props iprops ds d name hsub hds hmem hid hf
    have h1 : InPropList d props :=
      findMany_inPropList props "declarations" ds d hds (by decide) (by decide) hmem
    have h0 : SubNode (.mk "Identifier" (some name) iloc iprops) d := by
      cases d with
      | mk dty dnm dloc dprops =>
        exact SubNode.step _ _ _ _ _ _
          (findSingle_inPropList dprops "id" _ hid (by decide) (by decide)) (SubNode.refl _)
    have h2 : SubNode (.mk "Identifier" (some name) iloc iprops)
        (.mk "VariableDeclaration" nm loc props) :=
      subNode_trans (SubNode.step _ _ _ _ _ _ h1 (SubNode.refl _)) h0
    exact subNode_usage fp (subNode_trans hsub h2)
      (identifier_usage fp name iloc iprops hf) emptyASTResult

/-- Witness for C9: the self-reference usages of `function foo(){}` and of
    the declarator of `const bar = ...` at concrete trees. -/
theorem c9_witness :
    (⟨"foo", 1, "reference"⟩ : ASTUsage) ∈ (travNode "a.ts" emptyASTResult fdFoo).usages ∧
    (⟨"bar", 2, "reference"⟩ : ASTUsage) ∈ (travNode "a.ts" emptyASTResult vdBar).usages :=
  ⟨c9_self_reference_usage.1 "a.ts" fdFoo none (some 1) (some 1) _ .nil "foo"
      (SubNode.refl _) rfl rfl,
   c9_self_reference_usage.2 "a.ts" vdBar none (some 2) (some 2) _ .nil
      (.cons declBar .nil) declBar "bar" (SubNode.refl _) rfl (InNodeList.here _ _) rfl rfl⟩

end DeadCode
